import Mathlib

/-!
# Access-graph reconciliation and streaming (`lib/srv/discovery/access_graph.go`)

A shallow embedding of the discovery service's access-graph pipeline:

* `pushUpsertInBatches`, `pushDeleteInBatches`, `push` — the batched push protocol;
* `reconcileAccessGraph` — one reconciliation cycle (collect, merge, diff, push);
* `initializeAndWatchAccessGraph`, `initAccessGraphWatchers` — connection lifecycle;
* `grpcCredentials`, `newAccessGraphClient` — transport credentials.

The `aws_sync` package (`Resources`, `MergeResources`, `ReconcileResults`), the gRPC
stream and the file system are collaborators whose code is not part of this file; they
enter the embedding as parameters (`AwsSync`, `StreamClient.sendResult`, `Env`).
-/

namespace Discovery

/-! ## Errors -/

/-- A non-nil Go `error`. `raw` is an error that is not a trace error, as a collaborator
may return it (a stream `Send`, `os.ReadFile`, a fetcher `Poll`, `ctx.Err()`, ...);
`wrapped e` is the trace error that `trace.Wrap` builds around such an error `e`;
`badParameter` is the trace error built by `trace.BadParameter(msg)`. A Go `error` that may
be nil is an `Option GoError`. -/
inductive GoError where
  | raw (code : Nat)
  | wrapped (e : GoError)
  | badParameter (msg : String)
  deriving DecidableEq, Repr

/-- Whether the error is a trace error (implements `trace.Error`). -/
def GoError.isTrace : GoError → Bool
  | .raw _ => false
  | .wrapped _ => true
  | .badParameter _ => true

/-- The function `trace.Wrap` on a non-nil error: an error that is already a trace error is
returned unchanged, any other error is wrapped in a new trace error. -/
def GoError.traced (e : GoError) : GoError :=
  if e.isTrace then e else GoError.wrapped e

/-- The function `trace.Wrap`: nil stays nil, a non-nil error becomes a trace error. -/
def traceWrap : Option GoError → Option GoError
  | none => none
  | some e => some e.traced

/-! ## The stream and its messages -/

/-- The constant `batchSize`: the maximum number of resources in a single request. -/
def batchSize : Nat := 500

/-- The message `accessgraphv1alpha.AWSResourceList`. -/
structure AWSResourceList (ρ : Type) where
  Resources : List ρ
  deriving DecidableEq, Repr

/-- The message `accessgraphv1alpha.AWSEventsStreamRequest` with its three operations. -/
inductive AWSEventsStreamRequest (ρ : Type) where
  | Upsert (l : AWSResourceList ρ)
  | Delete (l : AWSResourceList ρ)
  | Sync
  deriving DecidableEq, Repr

/-- The client side of `AccessGraphService_AWSEventsStreamClient`. `sent` records every
`Send` call made on the stream so far, in call order (failed calls included);
`sendResult n` is the error returned by the call number `n` (counted from 0) on this
stream, `none` when that call succeeds. -/
structure StreamClient (ρ : Type) where
  sent : List (AWSEventsStreamRequest ρ)
  sendResult : Nat → Option GoError

/-- One call of `client.Send(msg)`: the call is recorded and its outcome returned. -/
def StreamClient.Send {ρ : Type} (client : StreamClient ρ) (msg : AWSEventsStreamRequest ρ) :
    Option GoError × StreamClient ρ :=
  (client.sendResult client.sent.length, { client with sent := client.sent ++ [msg] })

/-- The Go slice expression `xs[i:j]`. -/
def goSlice {α : Type} (xs : List α) (i j : Nat) : List α :=
  (xs.take j).drop i

/-- The loop of `pushUpsertInBatches`, entered with loop variable `i`. -/
def pushUpsertInBatches.loop {ρ : Type} (upsert : AWSResourceList ρ) (i : Nat)
    (client : StreamClient ρ) : Option GoError × StreamClient ρ :=
  if i < upsert.Resources.length then
    let e := if i + batchSize > upsert.Resources.length then upsert.Resources.length
             else i + batchSize
    match client.Send (.Upsert { Resources := goSlice upsert.Resources i e }) with
    | (some err, client) => (traceWrap (some err), client)
    | (none, client) => pushUpsertInBatches.loop upsert (i + batchSize) client
  else
    (none, client)
termination_by upsert.Resources.length - i
decreasing_by simp only [batchSize]; omega

/-- The function `pushUpsertInBatches`. -/
def pushUpsertInBatches {ρ : Type} (client : StreamClient ρ) (upsert : AWSResourceList ρ) :
    Option GoError × StreamClient ρ :=
  pushUpsertInBatches.loop upsert 0 client

/-- The loop of `pushDeleteInBatches`, entered with loop variable `i`. -/
def pushDeleteInBatches.loop {ρ : Type} (delete : AWSResourceList ρ) (i : Nat)
    (client : StreamClient ρ) : Option GoError × StreamClient ρ :=
  if i < delete.Resources.length then
    let e := if i + batchSize > delete.Resources.length then delete.Resources.length
             else i + batchSize
    match client.Send (.Delete { Resources := goSlice delete.Resources i e }) with
    | (some err, client) => (traceWrap (some err), client)
    | (none, client) => pushDeleteInBatches.loop delete (i + batchSize) client
  else
    (none, client)
termination_by delete.Resources.length - i
decreasing_by simp only [batchSize]; omega

/-- The function `pushDeleteInBatches`. -/
def pushDeleteInBatches {ρ : Type} (client : StreamClient ρ) (delete : AWSResourceList ρ) :
    Option GoError × StreamClient ρ :=
  pushDeleteInBatches.loop delete 0 client

/-- The function `push`: upserts, then deletes, then the sync marker; the first error
aborts the rest. -/
def push {ρ : Type} (client : StreamClient ρ) (upsert delete : AWSResourceList ρ) :
    Option GoError × StreamClient ρ :=
  match pushUpsertInBatches client upsert with
  | (some err, client) => (traceWrap (some err), client)
  | (none, client) =>
    match pushDeleteInBatches client delete with
    | (some err, client) => (traceWrap (some err), client)
    | (none, client) =>
      match client.Send .Sync with
      | (err, client) => (traceWrap err, client)

/-! ## The `aws_sync` package and the fetchers -/

/-- The part of package `aws_sync` a reconciliation cycle uses, whose code is outside this
file: the resource-set type `R` (`aws_sync.Resources`) with its zero value
`&aws_sync.Resources{}`, `MergeResources` and `ReconcileResults`. `ρ` is the type of one
wire resource (`accessgraphv1alpha.AWSResource`). -/
structure AwsSync (R ρ : Type) where
  empty : R
  MergeResources : List R → R
  ReconcileResults : R → R → AWSResourceList ρ × AWSResourceList ρ

/-- An `aws_sync.AWSSync` fetcher as one cycle sees it: the pair `(result, err)` that its
`Poll(ctx)` returns in this cycle; `none` stands for Go's nil. -/
structure AWSSync (R : Type) where
  Poll : Option R × Option GoError

/-- The local type `fetcherResult` of `reconcileAccessGraph`. -/
structure fetcherResult (R : Type) where
  result : Option R
  err : Option GoError

/-- Entries written by `s.Log`. -/
inductive LogEntry where
  | errorPollingTAGs (errs : List GoError)
  | errorPushingTAGs (err : GoError)
  | failedToGetStream (err : GoError)
  | errorInitializing (err : GoError)
  deriving DecidableEq, Repr

/-! ## Collection phase of `reconcileAccessGraph` (lines 50-79)

The main goroutine and the goroutines it starts are modelled as a transition system. A
goroutine is named by the position `k` of its fetcher in `allFetchers`. -/

/-- The atomic steps of the collection phase.
* `spawn`: the main goroutine runs one iteration of the `range` loop: `tokens <- struct{}{}`
  followed by the `go` statement for the next fetcher;
* `pollCall k`: goroutine `k` calls `fetcher.Poll(ctx)`;
* `pollReturn k`: that call returns;
* `sendResult k`: goroutine `k` executes `resultsC <- fetcherResult{result, trace.Wrap(err)}`;
* `release k`: goroutine `k` runs its deferred `<-tokens` and ends;
* `receive`: the main goroutine runs one iteration of the collecting loop,
  `fetcherResult := <-resultsC` and the two appends. -/
inductive Action where
  | spawn
  | pollCall (k : Nat)
  | pollReturn (k : Nat)
  | sendResult (k : Nat)
  | release (k : Nat)
  | receive
  deriving DecidableEq, Repr

/-- State of the collection phase. `next` counts the iterations of the `range` loop done,
`tokens` the items buffered in the channel `tokens` (capacity 3), `resultsC` holds the items
buffered in the channel `resultsC` (capacity `len(allFetchers)`), oldest first, `i` is the
loop variable of the collecting loop, `results` and `errs` are the two slices it fills.
The lists `spawned`, `polling`, `polled`, `queued`, `finished` hold the goroutines that
are, in this order: started but not yet in `Poll`; inside `Poll`; back from `Poll` and about
to send on `resultsC`; past that send with the deferred `<-tokens` pending; ended.
`polls` records the calls of `Poll` in call order. -/
structure Collecting (R : Type) where
  allFetchers : List (AWSSync R)
  next : Nat
  tokens : Nat
  spawned : List Nat
  polling : List Nat
  polled : List Nat
  queued : List Nat
  finished : List Nat
  resultsC : List (fetcherResult R)
  i : Nat
  results : List R
  errs : List GoError
  polls : List Nat

/-- State at line 50, after `allFetchers := s.getAllAWSSyncFetchers()` and the two `make`. -/
def Collecting.init {R : Type} (allFetchers : List (AWSSync R)) : Collecting R :=
  { allFetchers := allFetchers, next := 0, tokens := 0, spawned := [], polling := [],
    polled := [], queued := [], finished := [], resultsC := [], i := 0, results := [],
    errs := [], polls := [] }

/-- One atomic step; `none` when the step is not enabled in `s` (the goroutine is not at
that statement, or the channel operation would block). -/
def Collecting.step {R : Type} (s : Collecting R) : Action → Option (Collecting R)
  | .spawn =>
    if s.next < s.allFetchers.length ∧ s.tokens < 3 then
      some { s with next := s.next + 1, tokens := s.tokens + 1, spawned := s.next :: s.spawned }
    else none
  | .pollCall k =>
    if k ∈ s.spawned then
      some { s with spawned := s.spawned.erase k, polling := k :: s.polling,
                    polls := s.polls ++ [k] }
    else none
  | .pollReturn k =>
    if k ∈ s.polling then
      some { s with polling := s.polling.erase k, polled := k :: s.polled }
    else none
  | .sendResult k =>
    match s.allFetchers[k]? with
    | none => none
    | some fetcher =>
      if k ∈ s.polled ∧ s.resultsC.length < s.allFetchers.length then
        some { s with polled := s.polled.erase k, queued := k :: s.queued,
                      resultsC := s.resultsC ++
                        [{ result := fetcher.Poll.1, err := traceWrap fetcher.Poll.2 }] }
      else none
  | .release k =>
    if k ∈ s.queued ∧ 0 < s.tokens then
      some { s with queued := s.queued.erase k, finished := k :: s.finished,
                    tokens := s.tokens - 1 }
    else none
  | .receive =>
    if s.next = s.allFetchers.length ∧ s.i < s.allFetchers.length then
      match s.resultsC with
      | [] => none
      | r :: rest =>
        some { s with resultsC := rest, i := s.i + 1,
                      errs := (match r.err with
                        | some e => s.errs ++ [e]
                        | none => s.errs),
                      results := (match r.result with
                        | some res => s.results ++ [res]
                        | none => s.results) }
    else none

/-- Run a schedule (a sequence of atomic steps); `none` when one of them is not enabled. -/
def Collecting.run {R : Type} (s : Collecting R) : List Action → Option (Collecting R)
  | [] => some s
  | a :: rest =>
    match s.step a with
    | none => none
    | some s1 => Collecting.run s1 rest

/-- The collecting loop has ended (line 79 is passed): both loops ran `len(allFetchers)`
iterations. -/
def Collecting.collected {R : Type} (s : Collecting R) : Bool :=
  s.next == s.allFetchers.length && s.i == s.allFetchers.length

/-- The number of `Poll` invocations in flight. -/
def Collecting.inFlight {R : Type} (s : Collecting R) : Nat :=
  s.polling.length

/-- The schedule in which the goroutines run to their end one after the other and the main
goroutine collects afterwards. -/
def seqSchedule (n : Nat) : List Action :=
  (List.range n).flatMap (fun k =>
      [Action.spawn, Action.pollCall k, Action.pollReturn k, Action.sendResult k,
        Action.release k])
    ++ List.replicate n Action.receive

/-! ## `reconcileAccessGraph` -/

/-- What one call of `reconcileAccessGraph` leaves behind: the value of
`*currentTAGResources` and the stream on return, the slices `results` and `errs` as passed
to `MergeResources` and `trace.NewAggregate`, the `Poll` calls made, the arguments of the
calls of `push`, the error of `push`, and the log entries written. -/
structure CycleOutcome (R ρ : Type) where
  currentTAGResources : R
  stream : StreamClient ρ
  results : List R
  errs : List GoError
  polls : List Nat
  pushCalls : List (AWSResourceList ρ × AWSResourceList ρ)
  pushErr : Option GoError
  log : List LogEntry

/-- Lines 80-95 of `reconcileAccessGraph`, run on the slices `results` and `errs` that the
collection phase filled. -/
def reconcileAccessGraph.finish {R ρ : Type} (aws : AwsSync R ρ) (results : List R)
    (errs : List GoError) (polls : List Nat) (currentTAGResources : R)
    (stream : StreamClient ρ) : CycleOutcome R ρ :=
  -- `trace.NewAggregate` is nil exactly when there is no error
  let log := if errs = [] then [] else [LogEntry.errorPollingTAGs errs]
  let result := aws.MergeResources results
  let ud := aws.ReconcileResults currentTAGResources result
  match push stream ud.1 ud.2 with
  | (some err, stream) =>
    { currentTAGResources := currentTAGResources, stream := stream, results := results,
      errs := errs, polls := polls, pushCalls := [ud], pushErr := some err,
      log := log ++ [LogEntry.errorPushingTAGs err] }
  | (none, stream) =>
    { currentTAGResources := result, stream := stream, results := results,
      errs := errs, polls := polls, pushCalls := [ud], pushErr := none, log := log }

/-- The function `reconcileAccessGraph`, for the fetchers `allFetchers` and the interleaving
`sched` of the collection phase. `none` when `sched` is not a complete run of the
collection phase. -/
def reconcileAccessGraph {R ρ : Type} (aws : AwsSync R ρ) (allFetchers : List (AWSSync R))
    (sched : List Action) (currentTAGResources : R) (stream : StreamClient ρ) :
    Option (CycleOutcome R ρ) :=
  match (Collecting.init allFetchers).run sched with
  | none => none
  | some s =>
    if s.collected then
      some (reconcileAccessGraph.finish aws s.results s.errs s.polls currentTAGResources stream)
    else none

/-! ## Transport credentials: `grpcCredentials`, `newAccessGraphClient` -/

/-- The fields of `servicecfg.AccessGraphConfig` that this file reads. -/
structure AccessGraphConfig where
  Enabled : Bool
  Addr : String
  CA : String
  Insecure : Bool

/-- The fields of `tls.Config` that `grpcCredentials` sets. A certificate is named by a
number; `RootCAs` is the `*x509.CertPool` as the list of its certificates, `none` for nil. -/
structure TLSConfig where
  Certificates : List Nat
  MinVersion : Nat
  InsecureSkipVerify : Bool
  RootCAs : Option (List Nat)
  deriving DecidableEq, Repr

/-- The constant `tls.VersionTLS13`. -/
def VersionTLS13 : Nat := 0x0304

/-- The values of `grpc.DialOption` built in this file. -/
inductive DialOption where
  | WithDefaultServiceConfig (serviceConfig : String)
  | WithTransportCredentials (tlsConfig : TLSConfig)
  deriving DecidableEq, Repr

/-- The collaborators of the transport step: `os.ReadFile` (the bytes of a file or an
error), `(*x509.CertPool).AppendCertsFromPEM` (the certificates that parse out of the bytes;
Go's `ok` result is true exactly when there is at least one), and `grpc.DialContext` (a
connection, named by a number, or an error). -/
structure Env where
  ReadFile : String → Except GoError (List Nat)
  AppendCertsFromPEM : List Nat → List Nat
  DialContext : String → List DialOption → Except GoError Nat

/-- The calls made to the file system and to the dialer so far, in call order. -/
structure Effects where
  reads : List String
  dials : List (String × List DialOption)
  deriving DecidableEq, Repr

/-- The function `grpcCredentials`; the result is the Go pair `(grpc.DialOption, error)`. -/
def grpcCredentials (env : Env) (config : AccessGraphConfig) (certs : List Nat)
    (w : Effects) : (Option DialOption × Option GoError) × Effects :=
  let pool : Except GoError (Option (List Nat)) × Effects :=
    if config.CA ≠ "" then
      let w := { w with reads := w.reads ++ [config.CA] }
      match env.ReadFile config.CA with
      | .error err => (.error err.traced, w)
      | .ok caBytes =>
        if env.AppendCertsFromPEM caBytes = [] then
          (.error (GoError.badParameter "failed to append CA certificate to pool"), w)
        else
          (.ok (some (env.AppendCertsFromPEM caBytes)), w)
    else (.ok none, w)
  match pool with
  | (.error err, w) => ((none, some err), w)
  | (.ok pool, w) =>
    ((some (DialOption.WithTransportCredentials
        { Certificates := certs, MinVersion := VersionTLS13,
          InsecureSkipVerify := config.Insecure, RootCAs := pool }), none), w)

/-- The function `newAccessGraphClient`; the result is the Go pair `(*grpc.ClientConn, error)`.
The dial options passed on are `append(opts, opt)`. -/
def newAccessGraphClient (env : Env) (certs : List Nat) (config : AccessGraphConfig)
    (opts : List DialOption) (w : Effects) : (Option Nat × Option GoError) × Effects :=
  match grpcCredentials env config certs w with
  | ((_, some err), w) => ((none, traceWrap (some err)), w)
  | ((opt, none), w) =>
    let w := { w with dials := w.dials ++ [(config.Addr, opts ++ opt.toList)] }
    match env.DialContext config.Addr (opts ++ opt.toList) with
    | .ok conn => ((some conn, traceWrap none), w)
    | .error err => ((none, traceWrap (some err)), w)

/-! ## Connection lifecycle: `initializeAndWatchAccessGraph`, `initAccessGraphWatchers` -/

/-- The case taken by the `select` at the end of an iteration of the streaming loop:
`<-ctx.Done()` (with the value of `ctx.Err()`), `<-ticker.C`, or `<-reloadCh`. The context
is cancelled by the caller or by the goroutine watching the connection state. -/
inductive SelectEvent where
  | ctxDone (err : GoError)
  | tick
  | reload
  deriving DecidableEq, Repr

/-- What the surroundings do during one iteration of the streaming loop: the fetchers
returned by `getAllAWSSyncFetchers` with the outcome of their polls, the interleaving of the
collection phase, and the case the `select` takes afterwards. -/
structure Cycle (R : Type) where
  allFetchers : List (AWSSync R)
  sched : List Action
  select : SelectEvent

/-- One call of `reconcileAccessGraph` made by the streaming loop: the value of
`*currentTAGResources` and the stream passed in, and what the call left behind. -/
structure CycleRecord (R ρ : Type) where
  before : R
  streamBefore : StreamClient ρ
  outcome : CycleOutcome R ρ

/-- The streaming loop (lines 244-252) run on the given iterations. The result lists the
cycles run and says how the loop ended: `some err` when it returned `err`, `none` when the
given iterations are used up and the loop is waiting in `select`. -/
def initializeAndWatchAccessGraph.loop {R ρ : Type} (aws : AwsSync R ρ) :
    List (Cycle R) → R → StreamClient ρ →
      Option (List (CycleRecord R ρ) × Option (Option GoError))
  | [], _, _ => some ([], none)
  | c :: rest, currentTAGResources, stream =>
    match reconcileAccessGraph aws c.allFetchers c.sched currentTAGResources stream with
    | none => none
    | some out =>
      let record : CycleRecord R ρ :=
        { before := currentTAGResources, streamBefore := stream, outcome := out }
      match c.select with
      | .ctxDone err => some ([record], some (traceWrap (some err)))
      | .tick | .reload =>
        match initializeAndWatchAccessGraph.loop aws rest out.currentTAGResources out.stream with
        | none => none
        | some (records, returned) => some (record :: records, returned)

/-- What the surroundings do during one invocation of `initializeAndWatchAccessGraph`:
the transport collaborators, the outcome of `client.AWSEventsStream(ctx)` (an error, or a
new stream given by the outcomes of its `Send` calls), and the iterations of the loop. -/
structure Connection (R : Type) where
  env : Env
  AWSEventsStream : Except GoError (Nat → Option GoError)
  cycles : List (Cycle R)

/-- What one invocation of `initializeAndWatchAccessGraph` leaves behind. `streaming` says
whether the streaming loop was entered, `returned` is as for the loop. -/
structure WatchOutcome (R ρ : Type) where
  effects : Effects
  log : List LogEntry
  streaming : Bool
  cycles : List (CycleRecord R ρ)
  returned : Option (Option GoError)

/-- The constant `serviceConfig` of `initializeAndWatchAccessGraph`. -/
def serviceConfig : String :=
  "\x7b\n\t\t \"loadBalancingPolicy\": \"round_robin\",\n\t\t \"healthCheckConfig\": \x7b\n" ++
    "\t\t\t \"serviceName\": \"\"\n\t\t \x7d\n\t \x7d"

/-- The function `initializeAndWatchAccessGraph`. -/
def initializeAndWatchAccessGraph {R ρ : Type} (aws : AwsSync R ρ) (certs : List Nat)
    (config : AccessGraphConfig) (conn : Connection R) (w : Effects) :
    Option (WatchOutcome R ρ) :=
  match newAccessGraphClient conn.env certs config
      [DialOption.WithDefaultServiceConfig serviceConfig] w with
  | ((_, some err), w) =>
    some { effects := w, log := [], streaming := false, cycles := [],
           returned := some (traceWrap (some err)) }
  | ((_, none), w) =>
    match conn.AWSEventsStream with
    | .error err =>
      some { effects := w, log := [LogEntry.failedToGetStream err], streaming := false,
             cycles := [], returned := some (traceWrap (some err)) }
    | .ok sendResult =>
      -- currentTAGResources := &aws_sync.Resources{}
      match initializeAndWatchAccessGraph.loop aws conn.cycles aws.empty
          { sent := [], sendResult := sendResult } with
      | none => none
      | some (records, returned) =>
        some { effects := w, log := [], streaming := true, cycles := records,
               returned := returned }

/-- The case taken by the `select` of the goroutine of `initAccessGraphWatchers`:
`<-ctx.Done()` or `<-time.After(30 * time.Second)`. -/
inductive RetryEvent where
  | ctxDone
  | after30s
  deriving DecidableEq, Repr

/-- The goroutine started by `initAccessGraphWatchers` (lines 305-319), run on the given
invocations, each with the case its `select` takes afterwards. The result lists what each
invocation of `initializeAndWatchAccessGraph` left behind. -/
def initAccessGraphWatchers.watch {R ρ : Type} (aws : AwsSync R ρ) (certs : List Nat)
    (config : AccessGraphConfig) :
    List (Connection R × RetryEvent) → Effects → Option (List (WatchOutcome R ρ))
  | [], _ => some []
  | (conn, ev) :: rest, w =>
    match initializeAndWatchAccessGraph aws certs config conn w with
    | none => none
    | some out =>
      match out.returned with
      | none => some [out]
      | some _ =>
        match ev with
        | .ctxDone => some [out]
        | .after30s =>
          match initAccessGraphWatchers.watch aws certs config rest out.effects with
          | none => none
          | some outs => some (out :: outs)

/-- The connection part of `initAccessGraphWatchers` (lines 304-321): the goroutine is
started only when the access graph is enabled. The construction of the static fetchers
(lines 279-302) precedes it and does not touch the connection. -/
def initAccessGraphWatchers {R ρ : Type} (aws : AwsSync R ρ) (certs : List Nat)
    (config : AccessGraphConfig) (conns : List (Connection R × RetryEvent)) (w : Effects) :
    Option (List (WatchOutcome R ρ)) :=
  if config.Enabled then initAccessGraphWatchers.watch aws certs config conns w
  else some []

/-! ## A small instance of `aws_sync` -/

/-- Modelled from the spec: the package `aws_sync` (`MergeResources`, `ReconcileResults`),
for resources that are bare identities. A resource set is a list of identities, the merge
keeps each distinct identity once, the diff upserts the identities absent from the previous
snapshot and deletes the identities absent from the current set. Used only to evaluate the
cycle at concrete inputs. -/
def identityAws : AwsSync (List Nat) Nat :=
  { empty := []
    MergeResources := fun sets => sets.flatten.eraseDups
    ReconcileResults := fun previous current =>
      ({ Resources := current.filter (fun x => !previous.contains x) },
       { Resources := previous.filter (fun x => !current.contains x) }) }

/-! ## Proof devices for the push protocol

`sendAll` sends a given list of messages until the first failure, `chunksFrom` lists the
slices the batching loops cut. They serve the proofs only: the theorems below are stated
on `pushUpsertInBatches`, `pushDeleteInBatches` and `push`. -/

/-- Send the messages of a list in order until one `Send` fails. -/
def sendAll {ρ : Type} (client : StreamClient ρ) :
    List (AWSEventsStreamRequest ρ) → Option GoError × StreamClient ρ
  | [] => (none, client)
  | m :: ms =>
    match client.Send m with
    | (some err, client) => (some err, client)
    | (none, client) => sendAll client ms

/-- The slices `rs[i:min(i+500,len)]`, `rs[i+500:...]`, ... that a batching loop entered
with loop variable `i` cuts from `rs`. -/
def chunksFrom {ρ : Type} (rs : List ρ) (i : Nat) : List (List ρ) :=
  if i < rs.length then
    goSlice rs i (if i + batchSize > rs.length then rs.length else i + batchSize)
      :: chunksFrom rs (i + batchSize)
  else []
termination_by rs.length - i
decreasing_by simp only [batchSize]; omega

/-- The upsert message carrying a chunk. -/
def upsertMsg {ρ : Type} (chunk : List ρ) : AWSEventsStreamRequest ρ :=
  .Upsert { Resources := chunk }

/-- The delete message carrying a chunk. -/
def deleteMsg {ρ : Type} (chunk : List ρ) : AWSEventsStreamRequest ρ :=
  .Delete { Resources := chunk }

/-- The messages `push` sends when no `Send` fails: the upsert chunks, the delete chunks,
the sync marker. -/
def pushMessages {ρ : Type} (upsert delete : AWSResourceList ρ) :
    List (AWSEventsStreamRequest ρ) :=
  (chunksFrom upsert.Resources 0).map upsertMsg
    ++ ((chunksFrom delete.Resources 0).map deleteMsg ++ [AWSEventsStreamRequest.Sync])

/-- The stream on which every `Send` succeeds and nothing has been sent yet. -/
def okStream (ρ : Type) : StreamClient ρ :=
  { sent := [], sendResult := fun _ => none }

/-! ## Proof devices for the collection phase -/

/-- The result set that the goroutine of fetcher `k` puts on `resultsC`. -/
def pollResult {R : Type} (fs : List (AWSSync R)) (k : Nat) : Option R :=
  (fs[k]?).bind (fun f => f.Poll.1)

/-- The error that the goroutine of fetcher `k` puts on `resultsC`. -/
def pollErr {R : Type} (fs : List (AWSSync R)) (k : Nat) : Option GoError :=
  (fs[k]?).bind (fun f => traceWrap f.Poll.2)

/-- The invariant of the collection phase: every goroutine started is at exactly one
program point, each holds one token until it ends, every result sent is either buffered or
collected, and `Poll` was called exactly for the goroutines that are past that call. -/
structure Collecting.Inv {R : Type} (s : Collecting R) : Prop where
  next_le : s.next ≤ s.allFetchers.length
  i_le : s.i ≤ s.allFetchers.length
  workers : (s.spawned ++ (s.polling ++ (s.polled ++ (s.queued ++ s.finished)))).Perm
    (List.range s.next)
  tokens_eq : s.tokens = s.spawned.length + s.polling.length + s.polled.length + s.queued.length
  tokens_le : s.tokens ≤ 3
  queue : s.i + s.resultsC.length = s.queued.length + s.finished.length
  polls : s.polls.Perm (s.polling ++ (s.polled ++ (s.queued ++ s.finished)))
  results : (s.results ++ s.resultsC.filterMap (fun r => r.result)).Perm
    ((s.queued ++ s.finished).filterMap (pollResult s.allFetchers))
  errs : (s.errs ++ s.resultsC.filterMap (fun r => r.err)).Perm
    ((s.queued ++ s.finished).filterMap (pollErr s.allFetchers))

/-- The number of atomic steps the collection phase can still take. -/
def Collecting.remaining {R : Type} (s : Collecting R) : Nat :=
  5 * (s.allFetchers.length - s.next) + 4 * s.spawned.length + 3 * s.polling.length
    + 2 * s.polled.length + s.queued.length + (s.allFetchers.length - s.i)

/-! ## Streams on which a failed `Send` is final -/

/-- A failed `Send` is final: once a `Send` on the stream has returned an error, every later
`Send` on it returns an error. This is how a gRPC client stream behaves. -/
def StickyFailure (sendResult : Nat → Option GoError) : Prop :=
  ∀ n m, n ≤ m → sendResult n ≠ none → sendResult m ≠ none

/-- Some `Send` already made on the stream has failed. -/
def StreamClient.Broken {ρ : Type} (client : StreamClient ρ) : Prop :=
  ∃ n, n < client.sent.length ∧ client.sendResult n ≠ none

/-! ## Concrete inputs -/

/-- Ten fetchers; fetcher `k` returns the resource set `[k]` and no error. -/
def tenFetchers : List (AWSSync (List Nat)) :=
  (List.range 10).map (fun k => { Poll := (some [k], none) })

/-- A fetcher that returns both a resource set and an error. -/
def partialFetcher : AWSSync (List Nat) :=
  { Poll := (some [1], some (GoError.raw 7)) }

/-- A configuration without a custom trust root. -/
def plainConfig : AccessGraphConfig :=
  { Enabled := true, Addr := "graph:443", CA := "", Insecure := false }

/-- Collaborators for which dialing succeeds and no file can be read. -/
def plainEnv : Env :=
  { ReadFile := fun _ => Except.error (GoError.raw 1)
    AppendCertsFromPEM := fun _ => []
    DialContext := fun _ _ => Except.ok 0 }

/-- An iteration of the streaming loop with a single fetcher, which returns `rs`. -/
def cycleOf (rs : List Nat) (select : SelectEvent) : Cycle (List Nat) :=
  { allFetchers := [{ Poll := (some rs, none) }], sched := seqSchedule 1, select := select }

/-- A connection whose stream fails the third `Send` and every later one, and on which
three cycles run: the fetcher finds `1, 2`, then `1, 2, 3` twice; the ticker fires after the
first two cycles and the context is cancelled after the third. -/
def stickyConnection : Connection (List Nat) :=
  { env := plainEnv
    AWSEventsStream := Except.ok (fun n => if 2 ≤ n then some (GoError.raw 9) else none)
    cycles := [cycleOf [1, 2] SelectEvent.tick, cycleOf [1, 2, 3] SelectEvent.tick,
      cycleOf [1, 2, 3] (SelectEvent.ctxDone (GoError.raw 0))] }

/-- A connection with a sound stream on which one cycle runs before the context is
cancelled; the fetcher finds `1, 2, 3`. -/
def resyncConnection : Connection (List Nat) :=
  { env := plainEnv
    AWSEventsStream := Except.ok (fun _ => none)
    cycles := [cycleOf [1, 2, 3] (SelectEvent.ctxDone (GoError.raw 0))] }

/-- A connection with a sound stream on which two cycles run: the fetcher finds `1, 2`, the
ticker fires, the fetcher finds `1, 2, 3`, the context is cancelled. -/
def twoCycleConnection : Connection (List Nat) :=
  { env := plainEnv
    AWSEventsStream := Except.ok (fun _ => none)
    cycles := [cycleOf [1, 2] SelectEvent.tick,
      cycleOf [1, 2, 3] (SelectEvent.ctxDone (GoError.raw 0))] }

/-- A configuration with a custom trust root. -/
def caConfig : AccessGraphConfig :=
  { Enabled := true, Addr := "graph:443", CA := "/etc/ca.pem", Insecure := false }

/-- Collaborators for which the trust root file reads as bytes that hold no certificate. -/
def badPemEnv : Env :=
  { ReadFile := fun _ => Except.ok [45, 45]
    AppendCertsFromPEM := fun _ => []
    DialContext := fun _ _ => Except.ok 0 }

/-- The stream that has sent nothing and whose second `Send` fails with error 5. -/
def failsSecond : StreamClient Nat :=
  { sent := [], sendResult := fun n => if n = 1 then some (GoError.raw 5) else none }

/-- The stream that has sent nothing and whose third `Send` fails with error 7. -/
def failsThird : StreamClient Nat :=
  { sent := [], sendResult := fun n => if n = 2 then some (GoError.raw 7) else none }

section SendAll
variable {ρ : Type}

theorem sendAll_sendResult (c : StreamClient ρ) (msgs : List (AWSEventsStreamRequest ρ)) :
    (sendAll c msgs).2.sendResult = c.sendResult := by
  induction msgs generalizing c with
  | nil => rfl
  | cons m ms ih =>
    simp only [sendAll, StreamClient.Send]
    cases h : c.sendResult c.sent.length with
    | none => simp only [ih]
    | some e => rfl

theorem sendAll_append (c : StreamClient ρ) (a b : List (AWSEventsStreamRequest ρ)) :
    sendAll c (a ++ b) =
      match sendAll c a with
      | (some err, c1) => (some err, c1)
      | (none, c1) => sendAll c1 b := by
  induction a generalizing c with
  | nil => simp [sendAll]
  | cons m ms ih =>
    simp only [List.cons_append, sendAll, StreamClient.Send]
    cases h : c.sendResult c.sent.length with
    | none => exact ih _
    | some e => rfl

theorem sendAll_ok (c : StreamClient ρ) (msgs : List (AWSEventsStreamRequest ρ))
    (hok : ∀ i, i < msgs.length → c.sendResult (c.sent.length + i) = none) :
    sendAll c msgs = (none, { c with sent := c.sent ++ msgs }) := by
  induction msgs generalizing c with
  | nil => simp [sendAll]
  | cons m ms ih =>
    have h0 : c.sendResult c.sent.length = none := by
      have := hok 0 (by simp)
      simpa using this
    simp only [sendAll, StreamClient.Send, h0]
    rw [ih]
    · simp
    · intro i hi
      have := hok (i + 1) (by simpa using hi)
      simpa [Nat.add_assoc, Nat.add_comm 1 i] using this

theorem sendAll_fail (c : StreamClient ρ) (msgs : List (AWSEventsStreamRequest ρ))
    (j : Nat) (e : GoError) (hj : j < msgs.length)
    (hfail : c.sendResult (c.sent.length + j) = some e)
    (hok : ∀ i, i < j → c.sendResult (c.sent.length + i) = none) :
    sendAll c msgs = (some e, { c with sent := c.sent ++ msgs.take (j + 1) }) := by
  induction msgs generalizing c j with
  | nil => simp at hj
  | cons m ms ih =>
    cases j with
    | zero =>
      have h0 : c.sendResult c.sent.length = some e := by simpa using hfail
      simp [sendAll, StreamClient.Send, h0]
    | succ j =>
      have h0 : c.sendResult c.sent.length = none := by
        have := hok 0 (by omega)
        simpa using this
      simp only [sendAll, StreamClient.Send, h0]
      rw [ih _ j]
      · simp
      · simpa using hj
      · simpa [Nat.add_assoc, Nat.add_comm 1 j] using hfail
      · intro i hi
        have := hok (i + 1) (by omega)
        simpa [Nat.add_assoc, Nat.add_comm 1 i] using this

theorem sendAll_none_iff (c : StreamClient ρ) (msgs : List (AWSEventsStreamRequest ρ)) :
    (sendAll c msgs).1 = none ↔
      ∀ i, i < msgs.length → c.sendResult (c.sent.length + i) = none := by
  constructor
  · intro h i hi
    by_contra hne
    -- take the first failing call
    have hex : ∃ j, j < msgs.length ∧ c.sendResult (c.sent.length + j) ≠ none := ⟨i, hi, hne⟩
    classical
    let j := Nat.find hex
    have hjs := Nat.find_spec hex
    have hmin : ∀ k, k < j → c.sendResult (c.sent.length + k) = none := by
      intro k hk
      by_contra hk2
      exact Nat.find_min hex hk ⟨lt_trans hk hjs.1, hk2⟩
    obtain ⟨e, he⟩ := Option.ne_none_iff_exists'.mp hjs.2
    rw [sendAll_fail c msgs j e hjs.1 he hmin] at h
    simp at h
  · intro h
    rw [sendAll_ok c msgs h]

end SendAll

section Chunks
variable {ρ : Type}

theorem goSlice_length (rs : List ρ) (i j : Nat) :
    (goSlice rs i j).length = min j rs.length - i := by
  simp [goSlice]

theorem chunksFrom_of_lt (rs : List ρ) (i : Nat) (h : i < rs.length) :
    chunksFrom rs i =
      goSlice rs i (if i + batchSize > rs.length then rs.length else i + batchSize)
        :: chunksFrom rs (i + batchSize) := by
  rw [chunksFrom]; simp [h]

theorem chunksFrom_of_ge (rs : List ρ) (i : Nat) (h : rs.length ≤ i) :
    chunksFrom rs i = [] := by
  rw [chunksFrom]; simp [Nat.not_lt.mpr h]

theorem upsertLoop_eq_sendAll (upsert : AWSResourceList ρ) (i : Nat) (c : StreamClient ρ) :
    pushUpsertInBatches.loop upsert i c =
      (traceWrap (sendAll c ((chunksFrom upsert.Resources i).map upsertMsg)).1,
        (sendAll c ((chunksFrom upsert.Resources i).map upsertMsg)).2) := by
  generalize hn : upsert.Resources.length - i = n
  induction n using Nat.strong_induction_on generalizing i c with
  | _ n ih =>
    by_cases h : i < upsert.Resources.length
    · rw [pushUpsertInBatches.loop, chunksFrom_of_lt _ _ h]
      simp only [h, if_true, List.map_cons, sendAll, upsertMsg, StreamClient.Send]
      cases hs : c.sendResult c.sent.length with
      | some e => rfl
      | none =>
        simp only []
        exact ih (upsert.Resources.length - (i + batchSize))
          (by simp only [batchSize]; omega) _ _ rfl
    · rw [pushUpsertInBatches.loop, chunksFrom_of_ge _ _ (Nat.not_lt.mp h)]
      simp [h, sendAll, traceWrap]

theorem deleteLoop_eq_sendAll (delete : AWSResourceList ρ) (i : Nat) (c : StreamClient ρ) :
    pushDeleteInBatches.loop delete i c =
      (traceWrap (sendAll c ((chunksFrom delete.Resources i).map deleteMsg)).1,
        (sendAll c ((chunksFrom delete.Resources i).map deleteMsg)).2) := by
  generalize hn : delete.Resources.length - i = n
  induction n using Nat.strong_induction_on generalizing i c with
  | _ n ih =>
    by_cases h : i < delete.Resources.length
    · rw [pushDeleteInBatches.loop, chunksFrom_of_lt _ _ h]
      simp only [h, if_true, List.map_cons, sendAll, deleteMsg, StreamClient.Send]
      cases hs : c.sendResult c.sent.length with
      | some e => rfl
      | none =>
        simp only []
        exact ih (delete.Resources.length - (i + batchSize))
          (by simp only [batchSize]; omega) _ _ rfl
    · rw [pushDeleteInBatches.loop, chunksFrom_of_ge _ _ (Nat.not_lt.mp h)]
      simp [h, sendAll, traceWrap]

theorem chunksFrom_join (rs : List ρ) (i : Nat) :
    (chunksFrom rs i).flatten = rs.drop i := by
  generalize hn : rs.length - i = n
  induction n using Nat.strong_induction_on generalizing i with
  | _ n ih =>
    by_cases h : i < rs.length
    · rw [chunksFrom_of_lt _ _ h, List.flatten_cons,
        ih (rs.length - (i + batchSize)) (by simp only [batchSize]; omega) _ rfl]
      by_cases h2 : i + batchSize > rs.length
      · have h3 : rs.drop (i + batchSize) = [] := List.drop_eq_nil_of_le (by omega)
        simp [h2, goSlice, h3]
      · simp only [h2, if_false, goSlice]
        rw [← List.take_drop, ← List.drop_drop, List.take_append_drop]
    · rw [chunksFrom_of_ge _ _ (Nat.not_lt.mp h), List.drop_eq_nil_of_le (Nat.not_lt.mp h)]
      rfl

theorem chunksFrom_length (rs : List ρ) (i : Nat) :
    (chunksFrom rs i).length = (rs.length - i + 499) / 500 := by
  generalize hn : rs.length - i = n
  induction n using Nat.strong_induction_on generalizing i with
  | _ n ih =>
    by_cases h : i < rs.length
    · rw [chunksFrom_of_lt _ _ h, List.length_cons,
        ih (rs.length - (i + batchSize)) (by simp only [batchSize]; omega) _ rfl]
      simp only [batchSize]
      omega
    · rw [chunksFrom_of_ge _ _ (Nat.not_lt.mp h)]
      simp only [List.length_nil]
      omega

theorem chunksFrom_bounds (rs : List ρ) (i : Nat) :
    ∀ ch ∈ chunksFrom rs i, ch ≠ [] ∧ ch.length ≤ 500 := by
  generalize hn : rs.length - i = n
  induction n using Nat.strong_induction_on generalizing i with
  | _ n ih =>
    by_cases h : i < rs.length
    · rw [chunksFrom_of_lt _ _ h]
      intro ch hch
      rcases List.mem_cons.mp hch with rfl | hmem
      · have hl := goSlice_length rs i
          (if i + batchSize > rs.length then rs.length else i + batchSize)
        constructor
        · intro hnil
          rw [hnil] at hl
          simp only [List.length_nil, batchSize] at hl
          split at hl <;> omega
        · rw [hl]
          simp only [batchSize]
          split <;> omega
      · exact ih (rs.length - (i + batchSize)) (by simp only [batchSize]; omega) _ rfl ch hmem
    · rw [chunksFrom_of_ge _ _ (Nat.not_lt.mp h)]
      simp

theorem chunksFrom_full (rs : List ρ) (i : Nat) :
    ∀ ch ∈ (chunksFrom rs i).dropLast, ch.length = 500 := by
  generalize hn : rs.length - i = n
  induction n using Nat.strong_induction_on generalizing i with
  | _ n ih =>
    by_cases h : i < rs.length
    · rw [chunksFrom_of_lt _ _ h]
      by_cases h2 : i + batchSize < rs.length
      · rw [chunksFrom_of_lt _ _ h2, List.dropLast_cons₂, ← chunksFrom_of_lt _ _ h2]
        intro ch hch
        rcases List.mem_cons.mp hch with rfl | hmem
        · rw [goSlice_length]
          simp only [batchSize] at h2 ⊢
          split <;> omega
        · exact ih (rs.length - (i + batchSize)) (by simp only [batchSize]; omega) _ rfl
            ch hmem
      · rw [chunksFrom_of_ge _ _ (Nat.not_lt.mp h2)]
        simp
    · rw [chunksFrom_of_ge _ _ (Nat.not_lt.mp h)]
      simp

theorem chunksFrom_sizes_1200 (rs : List ρ) (h : rs.length = 1200) :
    (chunksFrom rs 0).map List.length = [500, 500, 200] := by
  rw [chunksFrom_of_lt rs 0 (by omega), chunksFrom_of_lt rs _ (by simp only [batchSize]; omega),
    chunksFrom_of_lt rs _ (by simp only [batchSize]; omega),
    chunksFrom_of_ge rs _ (by simp only [batchSize]; omega)]
  simp [goSlice_length, batchSize, h]

theorem chunksFrom_nil : chunksFrom ([] : List ρ) 0 = [] :=
  chunksFrom_of_ge _ _ (Nat.le_refl _)

theorem chunksFrom_small (rs : List ρ) (h : rs ≠ []) (h2 : rs.length ≤ 500) :
    chunksFrom rs 0 = [rs] := by
  have hpos : 0 < rs.length := List.length_pos.mpr h
  rw [chunksFrom_of_lt rs 0 hpos, chunksFrom_of_ge rs _ (by simp only [batchSize]; omega)]
  simp only [goSlice, batchSize, List.drop_zero]
  split
  · simp
  · rw [List.take_of_length_le (by omega)]

end Chunks

section Push
variable {ρ : Type}

theorem pushUpsertInBatches_eq (c : StreamClient ρ) (u : AWSResourceList ρ) :
    pushUpsertInBatches c u =
      (traceWrap (sendAll c ((chunksFrom u.Resources 0).map upsertMsg)).1,
        (sendAll c ((chunksFrom u.Resources 0).map upsertMsg)).2) :=
  upsertLoop_eq_sendAll u 0 c

theorem pushDeleteInBatches_eq (c : StreamClient ρ) (d : AWSResourceList ρ) :
    pushDeleteInBatches c d =
      (traceWrap (sendAll c ((chunksFrom d.Resources 0).map deleteMsg)).1,
        (sendAll c ((chunksFrom d.Resources 0).map deleteMsg)).2) :=
  deleteLoop_eq_sendAll d 0 c

theorem traced_isTrace (e : GoError) : e.traced.isTrace = true := by
  cases e <;> simp [GoError.traced, GoError.isTrace]

theorem traced_traced (e : GoError) : e.traced.traced = e.traced := by
  rw [GoError.traced, traced_isTrace]
  rfl

theorem traceWrap_traceWrap (err : Option GoError) : traceWrap (traceWrap err) = traceWrap err := by
  cases err with
  | none => rfl
  | some e => simp [traceWrap, traced_traced]

theorem traceWrap_eq_none (err : Option GoError) : traceWrap err = none ↔ err = none := by
  cases err <;> simp [traceWrap]

/-- The function `push` sends the messages of `pushMessages` until the first failure and
returns that failure as a trace error. -/
theorem push_eq_sendAll (c : StreamClient ρ) (u d : AWSResourceList ρ) :
    push c u d = (traceWrap (sendAll c (pushMessages u d)).1, (sendAll c (pushMessages u d)).2) := by
  simp only [push, pushUpsertInBatches_eq, pushDeleteInBatches_eq, pushMessages, sendAll_append]
  rcases h1 : sendAll c ((chunksFrom u.Resources 0).map upsertMsg) with ⟨_ | e1, c1⟩
  · simp only [traceWrap]
    rcases h2 : sendAll c1 ((chunksFrom d.Resources 0).map deleteMsg) with ⟨_ | e2, c2⟩
    · simp only [traceWrap, sendAll, StreamClient.Send]
      cases h3 : c2.sendResult c2.sent.length with
      | none => simp [traceWrap]
      | some e3 => simp [traceWrap]
    · simp [traceWrap, traced_traced]
  · simp [traceWrap, traced_traced]

theorem push_sendResult (c : StreamClient ρ) (u d : AWSResourceList ρ) :
    (push c u d).2.sendResult = c.sendResult := by
  rw [push_eq_sendAll, sendAll_sendResult]

theorem push_okStream_sent (u d : AWSResourceList ρ) :
    (push (okStream ρ) u d).2.sent = pushMessages u d := by
  rw [push_eq_sendAll, sendAll_ok _ _ (fun _ _ => rfl)]
  simp [okStream]

theorem push_none_iff (c : StreamClient ρ) (u d : AWSResourceList ρ) :
    (push c u d).1 = none ↔ (sendAll c (pushMessages u d)).1 = none := by
  rw [push_eq_sendAll]
  exact traceWrap_eq_none _

end Push

/-! ## The batched push protocol -/

section PushClaims

/-- Claim C1. On a stream on which every `Send` succeeds, `pushUpsertInBatches` returns nil
and sends exactly `ceil(n/500)` upsert messages (`n` the number of resources); each carries a
non-empty chunk of at most 500 resources, every chunk but the last carries exactly 500, and
the chunks concatenated in send order are the input list. For `n = 1200` the chunk sizes
are 500, 500, 200. -/
theorem pushUpsertInBatches_chunks {ρ : Type} (client : StreamClient ρ)
    (upsert : AWSResourceList ρ) (hok : ∀ n, client.sendResult n = none) :
    ∃ chunks : List (List ρ),
      pushUpsertInBatches client upsert =
        (none, { client with sent := client.sent ++ chunks.map upsertMsg }) ∧
      chunks.length = (upsert.Resources.length + 499) / 500 ∧
      (∀ ch ∈ chunks, ch ≠ [] ∧ ch.length ≤ 500) ∧
      (∀ ch ∈ chunks.dropLast, ch.length = 500) ∧
      chunks.flatten = upsert.Resources ∧
      (upsert.Resources.length = 1200 → chunks.map List.length = [500, 500, 200]) := by
  refine ⟨chunksFrom upsert.Resources 0, ?_, ?_, chunksFrom_bounds _ 0, chunksFrom_full _ 0, ?_,
    chunksFrom_sizes_1200 _⟩
  · rw [pushUpsertInBatches_eq, sendAll_ok _ _ (fun i _ => hok _)]
    rfl
  · rw [chunksFrom_length]; rfl
  · rw [chunksFrom_join]; rfl

/-- Witness of C1: the 1200 resources `0, ..., 1199` go out as three upsert messages of
500, 500 and 200 resources. -/
theorem pushUpsertInBatches_chunks_witness :
    (∀ n, (okStream Nat).sendResult n = none) ∧
    ∃ chunks : List (List Nat),
      pushUpsertInBatches (okStream Nat) { Resources := List.range 1200 } =
        (none, { sent := chunks.map upsertMsg, sendResult := fun _ => none }) ∧
      chunks.flatten = List.range 1200 ∧
      chunks.map List.length = [500, 500, 200] := by
  refine ⟨fun _ => rfl, ?_⟩
  obtain ⟨chunks, h1, _, _, _, h5, h6⟩ :=
    pushUpsertInBatches_chunks (okStream Nat) { Resources := List.range 1200 } (fun _ => rfl)
  have hlen : ({ Resources := List.range 1200 } : AWSResourceList Nat).Resources.length = 1200 :=
    by simp only [List.length_range]
  exact ⟨chunks, by simpa [okStream] using h1, by simpa only using h5, h6 hlen⟩

/-- Claim C2. On a stream on which every `Send` succeeds, `push` returns nil and sends, in
this order: the upsert messages (those `pushUpsertInBatches` sends for the upsert list), the
delete messages, whose chunks are cut from the delete list exactly as upsert chunks would be
(non-empty, at most 500 resources each, concatenating to the delete list), and one sync
message as the last message. With both lists empty the only message is the sync message. -/
theorem push_message_order {ρ : Type} (client : StreamClient ρ)
    (upsert delete : AWSResourceList ρ) (hok : ∀ n, client.sendResult n = none) :
    ∃ ups dels : List (List ρ),
      push client upsert delete =
        (none, { client with sent := client.sent ++
          (ups.map upsertMsg ++ (dels.map deleteMsg ++ [AWSEventsStreamRequest.Sync])) }) ∧
      pushUpsertInBatches client upsert =
        (none, { client with sent := client.sent ++ ups.map upsertMsg }) ∧
      pushUpsertInBatches client delete =
        (none, { client with sent := client.sent ++ dels.map upsertMsg }) ∧
      ups.flatten = upsert.Resources ∧
      dels.flatten = delete.Resources ∧
      (∀ ch ∈ dels, ch ≠ [] ∧ ch.length ≤ 500) ∧
      (upsert.Resources = [] → delete.Resources = [] →
        push client upsert delete =
          (none, { client with sent := client.sent ++ [AWSEventsStreamRequest.Sync] })) := by
  have hpush : push client upsert delete =
      (none, { client with sent := client.sent ++ pushMessages upsert delete }) := by
    rw [push_eq_sendAll, sendAll_ok _ _ (fun i _ => hok _)]
    rfl
  refine ⟨chunksFrom upsert.Resources 0, chunksFrom delete.Resources 0, hpush, ?_, ?_,
    chunksFrom_join _ 0, chunksFrom_join _ 0, chunksFrom_bounds _ 0, ?_⟩
  · rw [pushUpsertInBatches_eq, sendAll_ok _ _ (fun i _ => hok _)]
    rfl
  · rw [pushUpsertInBatches_eq, sendAll_ok _ _ (fun i _ => hok _)]
    rfl
  · intro hu hd
    rw [hpush, pushMessages, hu, hd, chunksFrom_nil]
    rfl

/-- Witness of C2: upserting `1, 2` and deleting `3` sends one upsert message, one delete
message and the sync marker, in this order; with nothing to push only the sync marker. -/
theorem push_message_order_witness :
    (∀ n, (okStream Nat).sendResult n = none) ∧
    push (okStream Nat) { Resources := [1, 2] } { Resources := [3] } =
      (none, { sent := [upsertMsg [1, 2], deleteMsg [3], AWSEventsStreamRequest.Sync],
               sendResult := fun _ => none }) ∧
    push (okStream Nat) { Resources := [] } { Resources := [] } =
      (none, { sent := [AWSEventsStreamRequest.Sync], sendResult := fun _ => none }) := by
  refine ⟨fun _ => rfl, ?_, ?_⟩
  · obtain ⟨ups, dels, h1, h2, h3, -⟩ :=
      push_message_order (okStream Nat) { Resources := [1, 2] } { Resources := [3] }
        (fun _ => rfl)
    rw [pushUpsertInBatches_eq, chunksFrom_small _ (by simp) (by simp),
      sendAll_ok _ _ (fun _ _ => rfl)] at h2 h3
    simp only [traceWrap, okStream, List.nil_append, List.map_cons, List.map_nil, Prod.mk.injEq,
      StreamClient.mk.injEq, true_and, and_true] at h2 h3
    have hu : ups = [[1, 2]] := by
      cases ups with
      | nil => simp at h2
      | cons a t =>
        cases t with
        | nil => simpa [upsertMsg] using h2.symm
        | cons b t2 => simp at h2
    have hd : dels = [[3]] := by
      cases dels with
      | nil => simp at h3
      | cons a t =>
        cases t with
        | nil => simpa [upsertMsg] using h3.symm
        | cons b t2 => simp at h3
    rw [h1, hu, hd]
    rfl
  · obtain ⟨_, _, _, _, _, _, _, _, h⟩ :=
      push_message_order (okStream Nat) { Resources := [] } { Resources := [] } (fun _ => rfl)
    rw [h rfl rfl]
    rfl

/-- Claim C3. Let `all` be the sequence `push` sends on a stream where every `Send` succeeds:
the messages of `pushUpsertInBatches`, then those of `pushDeleteInBatches`, then the sync
marker. `push` returns nil if and only if each of the `Send` calls for `all`, the final sync
included, succeeds. If call number `j + 1` is the first to fail, with error `e`, then `push`
makes exactly `j + 1` calls of `Send`, their messages are the first `j + 1` messages of
`all` (nothing is sent twice), and the error returned is non-nil and is
`trace.Wrap(e)`. -/
theorem push_first_failure {ρ : Type} (client : StreamClient ρ)
    (upsert delete : AWSResourceList ρ) :
    (push (okStream ρ) upsert delete).2.sent =
      (pushUpsertInBatches (okStream ρ) upsert).2.sent ++
        ((pushDeleteInBatches (okStream ρ) delete).2.sent ++ [AWSEventsStreamRequest.Sync]) ∧
    ((push client upsert delete).1 = none ↔
      ∀ i, i < (push (okStream ρ) upsert delete).2.sent.length →
        client.sendResult (client.sent.length + i) = none) ∧
    ∀ (j : Nat) (e : GoError),
      j < (push (okStream ρ) upsert delete).2.sent.length →
      client.sendResult (client.sent.length + j) = some e →
      (∀ i, i < j → client.sendResult (client.sent.length + i) = none) →
        (push client upsert delete).2.sent =
          client.sent ++ ((push (okStream ρ) upsert delete).2.sent).take (j + 1) ∧
        (push client upsert delete).2.sent.length = client.sent.length + (j + 1) ∧
        (push client upsert delete).1 = traceWrap (some e) ∧
        (push client upsert delete).1 ≠ none := by
  have hall : (push (okStream ρ) upsert delete).2.sent =
      (pushUpsertInBatches (okStream ρ) upsert).2.sent ++
        ((pushDeleteInBatches (okStream ρ) delete).2.sent ++ [AWSEventsStreamRequest.Sync]) := by
    rw [push_okStream_sent, pushUpsertInBatches_eq, pushDeleteInBatches_eq,
      sendAll_ok _ _ (fun _ _ => rfl), sendAll_ok _ _ (fun _ _ => rfl)]
    simp [okStream, pushMessages]
  refine ⟨hall, ?_, ?_⟩
  · rw [push_okStream_sent, push_none_iff, sendAll_none_iff]
  · rw [push_okStream_sent]
    intro j e hj hfail hok
    have hs := sendAll_fail client (pushMessages upsert delete) j e hj hfail hok
    have hp := push_eq_sendAll client upsert delete
    rw [hs] at hp
    have hsent : (push client upsert delete).2.sent =
        client.sent ++ List.take (j + 1) (pushMessages upsert delete) := by rw [hp]
    refine ⟨hsent, ?_, by rw [hp], by rw [hp]; simp [traceWrap]⟩
    rw [hsent]
    simp only [List.length_append, List.length_take]
    omega

/-- Witness of C3: the stream `failsThird` fails exactly the `Send` of the sync marker;
`push` makes all three calls and returns that error as a trace error, one layer around the
error of `Send`. The stream `failsSecond` fails the `Send` of the delete chunk; `push` stops
after two calls and returns that error, again with one layer. -/
theorem push_first_failure_witness :
    (push failsThird { Resources := [1, 2] } { Resources := [3] }).2.sent =
        [upsertMsg [1, 2], deleteMsg [3], AWSEventsStreamRequest.Sync] ∧
    (push failsThird { Resources := [1, 2] } { Resources := [3] }).1 =
        some (GoError.wrapped (GoError.raw 7)) ∧
    (push failsSecond { Resources := [1, 2] } { Resources := [3] }).2.sent =
        [upsertMsg [1, 2], deleteMsg [3]] ∧
    (push failsSecond { Resources := [1, 2] } { Resources := [3] }).1 =
        some (GoError.wrapped (GoError.raw 5)) := by
  have hall : (push (okStream Nat) { Resources := [1, 2] } { Resources := [3] }).2.sent =
      [upsertMsg [1, 2], deleteMsg [3], AWSEventsStreamRequest.Sync] := by
    rw [push_okStream_sent, pushMessages, chunksFrom_small _ (by simp) (by simp),
      chunksFrom_small _ (by simp) (by simp)]
    rfl
  have h := (push_first_failure failsThird { Resources := [1, 2] } { Resources := [3] }).2.2
    2 (GoError.raw 7) (by rw [hall]; decide) rfl
    (by intro i hi
        have hne : ¬ i = 2 := by omega
        simp [failsThird, hne])
  have g := (push_first_failure failsSecond { Resources := [1, 2] } { Resources := [3] }).2.2
    1 (GoError.raw 5) (by rw [hall]; decide) rfl
    (by intro i hi
        have hne : ¬ i = 1 := by omega
        simp [failsSecond, hne])
  rw [hall] at h g
  exact ⟨h.1, h.2.2.1, g.1, g.2.2.1⟩

end PushClaims

/-! ## Invariant of the collection phase -/

section Collect
variable {R : Type}

theorem Collecting.init_inv (fs : List (AWSSync R)) : (Collecting.init fs).Inv := by
  constructor <;> simp [Collecting.init]

theorem perm_move {α : Type} [DecidableEq α] (k : α) (a b c : List α) (h : k ∈ a) :
    (a.erase k ++ (k :: b ++ c)).Perm (a ++ (b ++ c)) := by
  have h1 : (a.erase k ++ (k :: b ++ c)).Perm (k :: (a.erase k ++ (b ++ c))) := by
    simp
  exact h1.trans (List.Perm.append_right _ (List.perm_cons_erase h).symm)

theorem perm_move_last {α : Type} [DecidableEq α] (k : α) (a c : List α) (h : k ∈ a) :
    (a.erase k ++ k :: c).Perm (a ++ c) := by
  simpa using perm_move k a [] c h

theorem Collecting.step_allFetchers (s s1 : Collecting R) (a : Action)
    (h : s.step a = some s1) : s1.allFetchers = s.allFetchers := by
  cases a <;> simp only [Collecting.step] at h
  all_goals (try split at h) <;> (try split at h) <;> (try split at h)
  all_goals first
    | (injection h with h; subst h; rfl)
    | (exact absurd h (by simp))

theorem Collecting.inv_spawn (s s1 : Collecting R) (hinv : s.Inv)
    (h : s.step Action.spawn = some s1) : s1.Inv := by
  simp only [Collecting.step] at h
  split at h
  · rename_i hc
    injection h with h
    subst h
    obtain ⟨h1, h2, h3, h4, h5, h6, h7, h8, h9⟩ := hinv
    refine ⟨by simp only []; omega, h2, ?_, by simp only [List.length_cons]; omega,
      by simp only []; omega, h6, h7, h8, h9⟩
    simp only [List.cons_append, List.range_succ]
    exact (List.Perm.cons _ h3).trans (List.perm_append_singleton _ _).symm
  · simp at h

theorem Collecting.inv_pollCall (s s1 : Collecting R) (k : Nat) (hinv : s.Inv)
    (h : s.step (Action.pollCall k) = some s1) : s1.Inv := by
  simp only [Collecting.step] at h
  split at h
  · rename_i hk
    injection h with h
    subst h
    obtain ⟨h1, h2, h3, h4, h5, h6, h7, h8, h9⟩ := hinv
    have hpos := List.length_pos_of_mem hk
    refine ⟨h1, h2, (perm_move k _ _ _ hk).trans h3, ?_, h5, h6, ?_, h8, h9⟩
    · simp only [List.length_erase_of_mem hk, List.length_cons]; omega
    · simp only [List.cons_append]
      exact (List.perm_append_singleton _ _).trans (List.Perm.cons _ h7)
  · simp at h

theorem Collecting.inv_pollReturn (s s1 : Collecting R) (k : Nat) (hinv : s.Inv)
    (h : s.step (Action.pollReturn k) = some s1) : s1.Inv := by
  simp only [Collecting.step] at h
  split at h
  · rename_i hk
    injection h with h
    subst h
    obtain ⟨h1, h2, h3, h4, h5, h6, h7, h8, h9⟩ := hinv
    have hpos := List.length_pos_of_mem hk
    refine ⟨h1, h2, (List.Perm.append_left _ (perm_move k _ _ _ hk)).trans h3, ?_, h5, h6,
      h7.trans (perm_move k _ _ _ hk).symm, h8, h9⟩
    simp only [List.length_erase_of_mem hk, List.length_cons]; omega
  · simp at h

theorem Collecting.inv_release (s s1 : Collecting R) (k : Nat) (hinv : s.Inv)
    (h : s.step (Action.release k) = some s1) : s1.Inv := by
  simp only [Collecting.step] at h
  split at h
  · rename_i hk
    injection h with h
    subst h
    obtain ⟨h1, h2, h3, h4, h5, h6, h7, h8, h9⟩ := hinv
    have hpos := List.length_pos_of_mem hk.1
    have hm := perm_move_last k s.queued s.finished hk.1
    refine ⟨h1, h2, ?_, ?_, by simp only []; omega, ?_, ?_, ?_, ?_⟩
    · exact (List.Perm.append_left _ (List.Perm.append_left _
        (List.Perm.append_left _ hm))).trans h3
    · simp only [List.length_erase_of_mem hk.1]; omega
    · simp only [List.length_erase_of_mem hk.1, List.length_cons]; omega
    · exact h7.trans (List.Perm.append_left _ (List.Perm.append_left _ hm)).symm
    · exact h8.trans (List.Perm.filterMap _ hm).symm
    · exact h9.trans (List.Perm.filterMap _ hm).symm
  · simp at h

theorem Collecting.inv_sendResult (s s1 : Collecting R) (k : Nat) (hinv : s.Inv)
    (h : s.step (Action.sendResult k) = some s1) : s1.Inv := by
  simp only [Collecting.step] at h
  split at h
  · simp at h
  · rename_i fetcher hf
    split at h
    · rename_i hk
      injection h with h
      subst h
      obtain ⟨h1, h2, h3, h4, h5, h6, h7, h8, h9⟩ := hinv
      have hpos := List.length_pos_of_mem hk.1
      have hm := perm_move k s.polled s.queued s.finished hk.1
      refine ⟨h1, h2, ?_, ?_, h5, ?_, ?_, ?_, ?_⟩
      · exact (List.Perm.append_left _ (List.Perm.append_left _ hm)).trans h3
      · simp only [List.length_erase_of_mem hk.1, List.length_cons]; omega
      · simp only [List.length_append, List.length_cons, List.length_nil]; omega
      · exact h7.trans (List.Perm.append_left _ hm).symm
      · have hr : pollResult s.allFetchers k = fetcher.Poll.1 := by
          simp [pollResult, hf]
        simp only [List.cons_append, List.filterMap_append]
        cases hp : fetcher.Poll.1 with
        | none =>
          rw [hp] at hr
          simpa [List.filterMap_cons, hr, hp] using h8
        | some r =>
          rw [hp] at hr
          simp only [List.filterMap_cons, hr, hp, List.filterMap_nil]
          rw [← List.append_assoc]
          exact (List.perm_append_singleton _ _).trans
            (List.Perm.cons _ (by simpa [List.filterMap_append] using h8))
      · have hr : pollErr s.allFetchers k = traceWrap fetcher.Poll.2 := by
          simp [pollErr, hf]
        simp only [List.cons_append, List.filterMap_append]
        cases hp : traceWrap fetcher.Poll.2 with
        | none =>
          rw [hp] at hr
          simpa [List.filterMap_cons, hr, hp] using h9
        | some r =>
          rw [hp] at hr
          simp only [List.filterMap_cons, hr, hp, List.filterMap_nil]
          rw [← List.append_assoc]
          exact (List.perm_append_singleton _ _).trans
            (List.Perm.cons _ (by simpa [List.filterMap_append] using h9))
    · simp at h

theorem Collecting.inv_receive (s s1 : Collecting R) (hinv : s.Inv)
    (h : s.step Action.receive = some s1) : s1.Inv := by
  simp only [Collecting.step] at h
  split at h
  · rename_i hc
    split at h
    · simp at h
    · rename_i r rest hrc
      injection h with h
      subst h
      obtain ⟨h1, h2, h3, h4, h5, h6, h7, h8, h9⟩ := hinv
      rw [hrc] at h6 h8 h9
      refine ⟨h1, by simp only []; omega, h3, h4, h5, ?_, h7, ?_, ?_⟩
      · simp only [List.length_cons] at h6 ⊢; omega
      · cases hp : r.result with
        | none => simpa [List.filterMap_cons, hp] using h8
        | some x => simpa [List.filterMap_cons, hp] using h8
      · cases hp : r.err with
        | none => simpa [List.filterMap_cons, hp] using h9
        | some x => simpa [List.filterMap_cons, hp] using h9
  · simp at h

theorem Collecting.step_inv (s s1 : Collecting R) (a : Action) (hinv : s.Inv)
    (h : s.step a = some s1) : s1.Inv := by
  cases a with
  | spawn => exact Collecting.inv_spawn s s1 hinv h
  | pollCall k => exact Collecting.inv_pollCall s s1 k hinv h
  | pollReturn k => exact Collecting.inv_pollReturn s s1 k hinv h
  | sendResult k => exact Collecting.inv_sendResult s s1 k hinv h
  | release k => exact Collecting.inv_release s s1 k hinv h
  | receive => exact Collecting.inv_receive s s1 hinv h

theorem Collecting.run_inv (s s1 : Collecting R) (sched : List Action) (hinv : s.Inv)
    (h : s.run sched = some s1) : s1.Inv ∧ s1.allFetchers = s.allFetchers := by
  induction sched generalizing s with
  | nil =>
    simp only [Collecting.run, Option.some.injEq] at h
    subst h
    exact ⟨hinv, rfl⟩
  | cons a rest ih =>
    simp only [Collecting.run] at h
    cases hs : s.step a with
    | none => rw [hs] at h; simp at h
    | some s2 =>
      rw [hs] at h
      have := ih s2 (Collecting.step_inv s s2 a hinv hs) h
      exact ⟨this.1, this.2.trans (Collecting.step_allFetchers s s2 a hs)⟩

theorem Collecting.run_append (s : Collecting R) (a b : List Action) :
    s.run (a ++ b) = (s.run a).bind (fun s1 => s1.run b) := by
  induction a generalizing s with
  | nil => rfl
  | cons x rest ih =>
    simp only [List.cons_append, Collecting.run]
    cases hs : s.step x with
    | none => rfl
    | some s2 => exact ih s2

theorem filterMap_range_getElem? {α β : Type} (l : List α) (f : α → Option β) :
    (List.range l.length).filterMap (fun k => (l[k]?).bind f) = l.filterMap f := by
  induction l using List.reverseRecOn with
  | nil => rfl
  | append_singleton l a ih =>
    rw [List.length_append, List.length_singleton, List.range_succ, List.filterMap_append,
      List.filterMap_append, ← ih]
    congr 1
    · apply List.filterMap_congr
      intro k hk
      rw [List.getElem?_append_left (List.mem_range.mp hk)]
    · have hget : (l ++ [a])[l.length]? = some a := by
        rw [List.getElem?_append_right (Nat.le_refl _)]
        simp
      cases hfa : f a <;> simp [List.filterMap_cons, hget, hfa]

theorem Collecting.collected_facts (s : Collecting R) (hinv : s.Inv)
    (hc : s.collected = true) :
    s.resultsC = [] ∧ s.spawned = [] ∧ s.polling = [] ∧ s.polled = [] ∧
    s.polls.Perm (List.range s.allFetchers.length) ∧
    s.results.Perm (s.allFetchers.filterMap (fun f => f.Poll.1)) ∧
    s.errs.Perm (s.allFetchers.filterMap (fun f => traceWrap f.Poll.2)) := by
  obtain ⟨h1, h2, h3, h4, h5, h6, h7, h8, h9⟩ := hinv
  simp only [Collecting.collected, Bool.and_eq_true, beq_iff_eq] at hc
  obtain ⟨hn, hi⟩ := hc
  have hlen := h3.length_eq
  simp only [List.length_append, List.length_range] at hlen
  have e1 : s.resultsC = [] := List.eq_nil_of_length_eq_zero (by omega)
  have e2 : s.spawned = [] := List.eq_nil_of_length_eq_zero (by omega)
  have e3 : s.polling = [] := List.eq_nil_of_length_eq_zero (by omega)
  have e4 : s.polled = [] := List.eq_nil_of_length_eq_zero (by omega)
  rw [e2, e3, e4, hn] at h3
  rw [e3, e4] at h7
  rw [e1] at h8 h9
  simp only [List.nil_append, List.filterMap_nil, List.append_nil] at h3 h7 h8 h9
  refine ⟨e1, e2, e3, e4, h7.trans h3, ?_, ?_⟩
  · have := h8.trans (List.Perm.filterMap _ h3)
    rw [show pollResult s.allFetchers = fun k => (s.allFetchers[k]?).bind (fun f => f.Poll.1)
      from rfl, filterMap_range_getElem?] at this
    exact this
  · have := h9.trans (List.Perm.filterMap _ h3)
    rw [show pollErr s.allFetchers = fun k => (s.allFetchers[k]?).bind
      (fun f => traceWrap f.Poll.2) from rfl, filterMap_range_getElem?] at this
    exact this

theorem Collecting.step_remaining (s s1 : Collecting R) (a : Action)
    (h : s.step a = some s1) : s1.remaining < s.remaining := by
  cases a <;> simp only [Collecting.step] at h
  case spawn =>
    split at h
    · rename_i hc
      injection h with h; subst h
      simp only [Collecting.remaining, List.length_cons]; omega
    · simp at h
  case pollCall k =>
    split at h
    · rename_i hk
      injection h with h; subst h
      have hpos := List.length_pos_of_mem hk
      simp only [Collecting.remaining, List.length_cons, List.length_erase_of_mem hk]; omega
    · simp at h
  case pollReturn k =>
    split at h
    · rename_i hk
      injection h with h; subst h
      have hpos := List.length_pos_of_mem hk
      simp only [Collecting.remaining, List.length_cons, List.length_erase_of_mem hk]; omega
    · simp at h
  case sendResult k =>
    split at h
    · simp at h
    · split at h
      · rename_i hk
        injection h with h; subst h
        have hpos := List.length_pos_of_mem hk.1
        simp only [Collecting.remaining, List.length_cons, List.length_erase_of_mem hk.1]; omega
      · simp at h
  case release k =>
    split at h
    · rename_i hk
      injection h with h; subst h
      have hpos := List.length_pos_of_mem hk.1
      simp only [Collecting.remaining, List.length_cons, List.length_erase_of_mem hk.1]; omega
    · simp at h
  case receive =>
    split at h
    · rename_i hc
      split at h
      · simp at h
      · injection h with h; subst h
        simp only [Collecting.remaining]; omega
    · simp at h

/-- A goroutine that is started and has not ended can take its next step: no channel
operation of a goroutine blocks. -/
theorem Collecting.worker_step (s : Collecting R) (hinv : s.Inv)
    (h : 0 < s.spawned.length + s.polling.length + s.polled.length + s.queued.length) :
    ∃ a s1, s.step a = some s1 := by
  obtain ⟨h1, h2, h3, h4, h5, h6, h7, h8, h9⟩ := hinv
  have hlen := h3.length_eq
  simp only [List.length_append, List.length_range] at hlen
  cases hsp : s.spawned with
  | cons k t =>
    exact ⟨Action.pollCall k, Option.ne_none_iff_exists'.mp (by simp [Collecting.step, hsp])⟩
  | nil =>
    cases hpg : s.polling with
    | cons k t =>
      exact ⟨Action.pollReturn k, Option.ne_none_iff_exists'.mp (by simp [Collecting.step, hpg])⟩
    | nil =>
      cases hpd : s.polled with
      | cons k t =>
        have hk : k ∈ List.range s.next := by
          apply h3.subset
          simp [hpd]
        have hkN : k < s.allFetchers.length := lt_of_lt_of_le (List.mem_range.mp hk) h1
        have hq : s.resultsC.length < s.allFetchers.length := by
          rw [hpd] at hlen
          simp only [List.length_cons] at hlen
          omega
        refine ⟨Action.sendResult k, Option.ne_none_iff_exists'.mp ?_⟩
        simp only [Collecting.step, List.getElem?_eq_getElem hkN]
        rw [if_pos ⟨by simp [hpd], hq⟩]
        simp
      | nil =>
        cases hqd : s.queued with
        | cons k t =>
          have ht : 0 < s.tokens := by
            rw [h4, hqd]; simp
          exact ⟨Action.release k, Option.ne_none_iff_exists'.mp (by simp [Collecting.step, hqd, ht])⟩
        | nil =>
          rw [hsp, hpg, hpd, hqd] at h
          simp at h

/-- The collection phase cannot deadlock: as long as the collecting loop has not ended,
some step is enabled. -/
theorem Collecting.progress (s : Collecting R) (hinv : s.Inv) (hnc : s.collected = false) :
    ∃ a s1, s.step a = some s1 := by
  have hlen := hinv.workers.length_eq
  simp only [List.length_append, List.length_range] at hlen
  have h1 := hinv.next_le
  have h2 := hinv.i_le
  have h4 := hinv.tokens_eq
  have h6 := hinv.queue
  by_cases hn : s.next < s.allFetchers.length
  · by_cases ht : s.tokens < 3
    · exact ⟨Action.spawn, Option.ne_none_iff_exists'.mp (by simp [Collecting.step, hn, ht])⟩
    · exact Collecting.worker_step s hinv (by omega)
  · have hnext : s.next = s.allFetchers.length := by omega
    have hi : s.i < s.allFetchers.length := by
      simp only [Collecting.collected, hnext, beq_self_eq_true, Bool.true_and,
        beq_eq_false_iff_ne, ne_eq] at hnc
      omega
    cases hrc : s.resultsC with
    | cons r rest =>
      exact ⟨Action.receive, Option.ne_none_iff_exists'.mp (by simp [Collecting.step, hnext, hi, hrc])⟩
    | nil =>
      rw [hrc] at h6
      simp only [List.length_nil] at h6
      exact Collecting.worker_step s hinv (by omega)

/-- Every interleaving can be continued until the collecting loop has ended. -/
theorem Collecting.can_complete (s : Collecting R) (hinv : s.Inv) :
    ∃ sched s1, s.run sched = some s1 ∧ s1.collected = true := by
  generalize hn : s.remaining = n
  induction n using Nat.strong_induction_on generalizing s with
  | _ n ih =>
    cases hc : s.collected with
    | true => exact ⟨[], s, rfl, hc⟩
    | false =>
      obtain ⟨a, s1, hs⟩ := Collecting.progress s hinv hc
      have hlt := Collecting.step_remaining s s1 a hs
      obtain ⟨sched, s2, hr, hc2⟩ :=
        ih s1.remaining (by omega) s1 (Collecting.step_inv s s1 a hinv hs) rfl
      exact ⟨a :: sched, s2, by simp [Collecting.run, hs, hr], hc2⟩

end Collect

/-! ## The reconciliation cycle -/

section Cycle
variable {R ρ : Type}

theorem finish_results (aws : AwsSync R ρ) (results : List R) (errs : List GoError)
    (polls : List Nat) (cur : R) (stream : StreamClient ρ) :
    (reconcileAccessGraph.finish aws results errs polls cur stream).results = results ∧
    (reconcileAccessGraph.finish aws results errs polls cur stream).errs = errs ∧
    (reconcileAccessGraph.finish aws results errs polls cur stream).polls = polls ∧
    (reconcileAccessGraph.finish aws results errs polls cur stream).pushCalls =
      [aws.ReconcileResults cur (aws.MergeResources results)] := by
  simp only [reconcileAccessGraph.finish]
  split <;> simp

theorem finish_push (aws : AwsSync R ρ) (results : List R) (errs : List GoError)
    (polls : List Nat) (cur : R) (stream : StreamClient ρ) :
    (reconcileAccessGraph.finish aws results errs polls cur stream).pushErr =
      (push stream (aws.ReconcileResults cur (aws.MergeResources results)).1
        (aws.ReconcileResults cur (aws.MergeResources results)).2).1 ∧
    (reconcileAccessGraph.finish aws results errs polls cur stream).stream =
      (push stream (aws.ReconcileResults cur (aws.MergeResources results)).1
        (aws.ReconcileResults cur (aws.MergeResources results)).2).2 := by
  simp only [reconcileAccessGraph.finish]
  split <;> rename_i h <;> simp [h]

theorem finish_current (aws : AwsSync R ρ) (results : List R) (errs : List GoError)
    (polls : List Nat) (cur : R) (stream : StreamClient ρ) :
    ((reconcileAccessGraph.finish aws results errs polls cur stream).pushErr = none →
      (reconcileAccessGraph.finish aws results errs polls cur stream).currentTAGResources =
        aws.MergeResources results) ∧
    ((reconcileAccessGraph.finish aws results errs polls cur stream).pushErr ≠ none →
      (reconcileAccessGraph.finish aws results errs polls cur stream).currentTAGResources =
        cur) := by
  simp only [reconcileAccessGraph.finish]
  split <;> simp

/-- A call of `reconcileAccessGraph` that returns ran a complete collection phase. -/
theorem reconcileAccessGraph_some (aws : AwsSync R ρ) (fs : List (AWSSync R))
    (sched : List Action) (cur : R) (stream : StreamClient ρ) (out : CycleOutcome R ρ)
    (h : reconcileAccessGraph aws fs sched cur stream = some out) :
    ∃ s, (Collecting.init fs).run sched = some s ∧ s.collected = true ∧ s.Inv ∧
      s.allFetchers = fs ∧
      out = reconcileAccessGraph.finish aws s.results s.errs s.polls cur stream := by
  simp only [reconcileAccessGraph] at h
  split at h
  · simp at h
  · rename_i s hs
    split at h
    · rename_i hc
      injection h with h
      have hi := Collecting.run_inv _ s sched (Collecting.init_inv fs) hs
      exact ⟨s, hs, hc, hi.1, hi.2, h.symm⟩
    · simp at h

end Cycle

section CycleClaims
variable {R ρ : Type}

theorem reconcileAccessGraph_eval (aws : AwsSync R ρ) (fs : List (AWSSync R))
    (sched : List Action) (cur : R) (stream : StreamClient ρ) (s : Collecting R)
    (hs : (Collecting.init fs).run sched = some s) (hc : s.collected = true) :
    reconcileAccessGraph aws fs sched cur stream =
      some (reconcileAccessGraph.finish aws s.results s.errs s.polls cur stream) := by
  simp [reconcileAccessGraph, hs, hc]

theorem push_ok_none (c : StreamClient ρ) (u d : AWSResourceList ρ)
    (hok : ∀ n, c.sendResult n = none) : (push c u d).1 = none :=
  (push_none_iff c u d).mpr ((sendAll_none_iff c _).mpr (fun _ _ => hok _))

/-- The collection phase for a single fetcher that returns the set `rs`. -/
theorem run_one (rs : List Nat) :
    (Collecting.init [({ Poll := (some rs, none) } : AWSSync (List Nat))]).run
        (seqSchedule 1) =
    some { allFetchers := [{ Poll := (some rs, none) }], next := 1, tokens := 0,
           spawned := [], polling := [], polled := [], queued := [], finished := [0],
           resultsC := [], i := 1, results := [rs], errs := [], polls := [0] } := rfl

theorem reconcile_single (aws : AwsSync (List Nat) Nat) (rs cur : List Nat)
    (stream : StreamClient Nat) :
    reconcileAccessGraph aws [{ Poll := (some rs, none) }] (seqSchedule 1) cur stream =
      some (reconcileAccessGraph.finish aws [rs] [] [0] cur stream) :=
  reconcileAccessGraph_eval aws _ _ cur stream _ (run_one rs) rfl

/-- Claim C4. When `reconcileAccessGraph` returns, `*currentTAGResources` is the whole
merged set of this cycle, `MergeResources` of the result sets collected, if `push` returned
no error, and is its prior value if `push` returned an error. The sets collected are the
non-nil result sets of the fetchers, and the error of `push` is that of pushing
`ReconcileResults(prior, merged)`. -/
theorem reconcileAccessGraph_snapshot (aws : AwsSync R ρ) (allFetchers : List (AWSSync R))
    (sched : List Action) (currentTAGResources : R) (stream : StreamClient ρ)
    (out : CycleOutcome R ρ)
    (h : reconcileAccessGraph aws allFetchers sched currentTAGResources stream = some out) :
    out.results.Perm (allFetchers.filterMap (fun f => f.Poll.1)) ∧
    out.pushErr =
      (push stream
        (aws.ReconcileResults currentTAGResources (aws.MergeResources out.results)).1
        (aws.ReconcileResults currentTAGResources (aws.MergeResources out.results)).2).1 ∧
    (out.pushErr = none → out.currentTAGResources = aws.MergeResources out.results) ∧
    (out.pushErr ≠ none → out.currentTAGResources = currentTAGResources) := by
  obtain ⟨s, hs, hc, hinv, hfs, rfl⟩ := reconcileAccessGraph_some aws _ _ _ _ _ h
  have hf := Collecting.collected_facts s hinv hc
  have hr := finish_results aws s.results s.errs s.polls currentTAGResources stream
  have hp := finish_push aws s.results s.errs s.polls currentTAGResources stream
  have hcur := finish_current aws s.results s.errs s.polls currentTAGResources stream
  rw [hr.1]
  refine ⟨?_, hp.1, hcur.1, hcur.2⟩
  rw [← hfs]
  exact hf.2.2.2.2.2.1


/-- Witness of C4: one fetcher returns `[1, 2]`; on a stream that accepts every message the
snapshot becomes `[1, 2]`. -/
theorem reconcileAccessGraph_snapshot_witness :
    reconcileAccessGraph identityAws [{ Poll := (some [1, 2], none) }] (seqSchedule 1) []
        (okStream Nat) =
      some (reconcileAccessGraph.finish identityAws [[1, 2]] [] [0] [] (okStream Nat)) ∧
    (reconcileAccessGraph.finish identityAws [[1, 2]] [] [0] [] (okStream Nat)).currentTAGResources
      = [1, 2] := by
  have h := reconcile_single identityAws [1, 2] [] (okStream Nat)
  have hc := reconcileAccessGraph_snapshot identityAws _ _ _ _ _ h
  refine ⟨h, ?_⟩
  have hnone := hc.2.1.trans (push_ok_none _ _ _ (fun _ => rfl))
  rw [hc.2.2.1 hnone, (finish_results _ _ _ _ _ _).1]
  decide


/-- The state in which the collection phase ends for the single fetcher that returns both
the set `[1]` and an error. -/
theorem run_partial : (Collecting.init [partialFetcher]).run (seqSchedule 1) =
    some { allFetchers := [partialFetcher], next := 1, tokens := 0,
           spawned := [], polling := [], polled := [], queued := [], finished := [0],
           resultsC := [], i := 1, results := [[1]],
           errs := [GoError.wrapped (GoError.raw 7)], polls := [0] } := rfl

/-- Counterexample to C5 as stated: the fetcher `partialFetcher` returns a non-nil error
together with the set `[1]`, and the cycle passes `[1]` to `MergeResources` all the same. -/
theorem reconcileAccessGraph_keeps_result_of_failed_poll :
    partialFetcher.Poll.2 = some (GoError.raw 7) ∧
    (reconcileAccessGraph identityAws [partialFetcher] (seqSchedule 1) []
        (okStream Nat)).map (fun out => (out.errs, out.results)) =
      some ([GoError.wrapped (GoError.raw 7)], [[1]]) := by
  refine ⟨rfl, ?_⟩
  rw [reconcileAccessGraph_eval identityAws _ _ [] (okStream Nat) _ run_partial rfl]
  simp only [Option.map_some', (finish_results _ _ _ _ _ _).1, (finish_results _ _ _ _ _ _).2.1]

/-- Claim C5, amended. The sets passed to `MergeResources` are exactly the non-nil result
sets returned by the polls, each once, whether or not the poll also returned an error; the
errors aggregated are exactly the non-nil errors returned by the polls, each wrapped and
each once. -/
theorem reconcileAccessGraph_contributions (aws : AwsSync R ρ)
    (allFetchers : List (AWSSync R)) (sched : List Action) (currentTAGResources : R)
    (stream : StreamClient ρ) (out : CycleOutcome R ρ)
    (h : reconcileAccessGraph aws allFetchers sched currentTAGResources stream = some out) :
    out.results.Perm (allFetchers.filterMap (fun f => f.Poll.1)) ∧
    out.errs.Perm (allFetchers.filterMap (fun f => traceWrap f.Poll.2)) := by
  obtain ⟨s, hs, hc, hinv, hfs, rfl⟩ := reconcileAccessGraph_some aws _ _ _ _ _ h
  have hf := Collecting.collected_facts s hinv hc
  have hr := finish_results aws s.results s.errs s.polls currentTAGResources stream
  rw [hr.1, hr.2.1, ← hfs]
  exact ⟨hf.2.2.2.2.2.1, hf.2.2.2.2.2.2⟩

/-- The state in which the collection phase ends for a fetcher that only fails followed by
the fetcher `partialFetcher`. -/
theorem run_failed_partial :
    (Collecting.init [({ Poll := (none, some (GoError.raw 3)) } : AWSSync (List Nat)),
        partialFetcher]).run (seqSchedule 2) =
    some { allFetchers := [{ Poll := (none, some (GoError.raw 3)) }, partialFetcher],
           next := 2, tokens := 0, spawned := [], polling := [], polled := [], queued := [],
           finished := [1, 0], resultsC := [], i := 2, results := [[1]],
           errs := [GoError.wrapped (GoError.raw 3), GoError.wrapped (GoError.raw 7)],
           polls := [0, 1] } := rfl

/-- Witness of the amended C5: of two failing fetchers, the one that also returned a set
contributes it. -/
theorem reconcileAccessGraph_contributions_witness :
    reconcileAccessGraph identityAws
        [{ Poll := (none, some (GoError.raw 3)) }, partialFetcher] (seqSchedule 2) []
        (okStream Nat) =
      some (reconcileAccessGraph.finish identityAws [[1]]
        [GoError.wrapped (GoError.raw 3), GoError.wrapped (GoError.raw 7)] [0, 1] []
        (okStream Nat)) ∧
    ([[1]] : List (List Nat)).Perm
      (List.filterMap (fun f => f.Poll.1)
        [({ Poll := (none, some (GoError.raw 3)) } : AWSSync (List Nat)), partialFetcher]) := by
  have h := reconcileAccessGraph_eval identityAws _ _ [] (okStream Nat) _ run_failed_partial rfl
  have hc := reconcileAccessGraph_contributions identityAws _ _ _ _ _ h
  rw [(finish_results _ _ _ _ _ _).1] at hc
  exact ⟨h, hc.1⟩

/-- Claim C6. Whatever the fetchers and whichever polls fail, every interleaving of the
collection phase can be continued to its end, and a cycle that ran to its end has called
`Poll` exactly once per fetcher and `push` exactly once, on the stream passed in, with the
pair `ReconcileResults(prior, MergeResources(sets collected))`, where the sets collected are
the non-nil result sets of the polls. -/
theorem reconcileAccessGraph_always_pushes (aws : AwsSync R ρ)
    (allFetchers : List (AWSSync R)) (currentTAGResources : R) (stream : StreamClient ρ) :
    (∀ sched s, (Collecting.init allFetchers).run sched = some s →
      ∃ rest out,
        reconcileAccessGraph aws allFetchers (sched ++ rest) currentTAGResources stream
          = some out) ∧
    (∀ sched out,
      reconcileAccessGraph aws allFetchers sched currentTAGResources stream = some out →
        out.polls.Perm (List.range allFetchers.length) ∧
        out.results.Perm (allFetchers.filterMap (fun f => f.Poll.1)) ∧
        out.pushCalls =
          [aws.ReconcileResults currentTAGResources (aws.MergeResources out.results)] ∧
        (out.pushErr, out.stream) =
          push stream
            (aws.ReconcileResults currentTAGResources (aws.MergeResources out.results)).1
            (aws.ReconcileResults currentTAGResources (aws.MergeResources out.results)).2) := by
  constructor
  · intro sched s hs
    have hinv := Collecting.run_inv _ s sched (Collecting.init_inv allFetchers) hs
    obtain ⟨rest, s1, hr, hc⟩ := Collecting.can_complete s hinv.1
    refine ⟨rest, _, reconcileAccessGraph_eval aws _ _ _ _ s1 ?_ hc⟩
    rw [Collecting.run_append, hs]
    exact hr
  · intro sched out h
    obtain ⟨s, hs, hc, hinv, hfs, rfl⟩ := reconcileAccessGraph_some aws _ _ _ _ _ h
    have hf := Collecting.collected_facts s hinv hc
    have hr := finish_results aws s.results s.errs s.polls currentTAGResources stream
    have hp := finish_push aws s.results s.errs s.polls currentTAGResources stream
    rw [hr.1, hr.2.2.1, ← hfs]
    exact ⟨hf.2.2.2.2.1, hf.2.2.2.2.2.1, hr.2.2.2, Prod.ext hp.1 hp.2⟩

/-- The state in which the collection phase ends for two fetchers that both fail. -/
theorem run_all_failed :
    (Collecting.init [({ Poll := (none, some (GoError.raw 3)) } : AWSSync (List Nat)),
        { Poll := (none, some (GoError.raw 4)) }]).run (seqSchedule 2) =
    some { allFetchers := [{ Poll := (none, some (GoError.raw 3)) },
             { Poll := (none, some (GoError.raw 4)) }],
           next := 2, tokens := 0, spawned := [], polling := [], polled := [], queued := [],
           finished := [1, 0], resultsC := [], i := 2, results := [],
           errs := [GoError.wrapped (GoError.raw 3), GoError.wrapped (GoError.raw 4)],
           polls := [0, 1] } := rfl

/-- Witness of C6: with both fetchers failing and the snapshot `[5]`, the cycle still calls
`push` once, with nothing to upsert and `5` to delete. -/
theorem reconcileAccessGraph_always_pushes_witness :
    ∃ out,
      reconcileAccessGraph identityAws
        [{ Poll := (none, some (GoError.raw 3)) }, { Poll := (none, some (GoError.raw 4)) }]
        (seqSchedule 2) [5] (okStream Nat) = some out ∧
      out.polls.Perm [0, 1] ∧
      out.pushCalls = [({ Resources := [] }, { Resources := [5] })] := by
  have h := reconcileAccessGraph_eval identityAws _ _ [5] (okStream Nat) _ run_all_failed rfl
  have hc := (reconcileAccessGraph_always_pushes identityAws _ [5] (okStream Nat)).2 _ _ h
  refine ⟨_, h, hc.1, ?_⟩
  rw [hc.2.2.1, (finish_results _ _ _ _ _ _).1]
  decide

/-- A goroutine back from `Poll` can always send on `resultsC`: the buffer is not full. -/
theorem Collecting.send_enabled (s : Collecting R) (hinv : s.Inv) (k : Nat)
    (hk : k ∈ s.polled) : ∃ s1, s.step (Action.sendResult k) = some s1 := by
  have hlen := hinv.workers.length_eq
  simp only [List.length_append, List.length_range] at hlen
  have hpos := List.length_pos_of_mem hk
  have h1 := hinv.next_le
  have h6 := hinv.queue
  have hkr : k ∈ List.range s.next := by
    apply hinv.workers.subset
    simp [hk]
  have hkN : k < s.allFetchers.length := lt_of_lt_of_le (List.mem_range.mp hkr) h1
  have hq : s.resultsC.length < s.allFetchers.length := by omega
  refine Option.ne_none_iff_exists'.mp ?_
  simp only [Collecting.step, List.getElem?_eq_getElem hkN]
  rw [if_pos ⟨hk, hq⟩]
  simp

/-- Claim C10. In every state that an interleaving of the collection phase reaches, at most
3 calls of `Poll` are in flight. The goroutines that are started and have not ended hold
one token each (`tokens` counts exactly them, and is at most 3), so a goroutine holds its
token from before its `Poll` call until after its result is sent; every goroutine that has
released its token has its result buffered or collected; and a goroutine back from `Poll`
can always send on `resultsC`, which never holds more than `len(allFetchers)` items. -/
theorem reconcileAccessGraph_poll_ceiling (allFetchers : List (AWSSync R))
    (sched : List Action) (s : Collecting R)
    (h : (Collecting.init allFetchers).run sched = some s) :
    s.inFlight ≤ 3 ∧
    s.tokens = s.spawned.length + s.polling.length + s.polled.length + s.queued.length ∧
    s.tokens ≤ 3 ∧
    s.finished.length ≤ s.i + s.resultsC.length ∧
    (∀ k, k ∈ s.polled → ∃ s1, s.step (Action.sendResult k) = some s1) ∧
    s.resultsC.length ≤ allFetchers.length := by
  obtain ⟨hinv, hfs⟩ := Collecting.run_inv _ s sched (Collecting.init_inv allFetchers) h
  have hlen := hinv.workers.length_eq
  simp only [List.length_append, List.length_range] at hlen
  have h1 := hinv.next_le
  have h4 := hinv.tokens_eq
  have h5 := hinv.tokens_le
  have h6 := hinv.queue
  simp only [Collecting.init] at hfs
  refine ⟨?_, h4, h5, by omega, Collecting.send_enabled s hinv, by rw [← hfs]; omega⟩
  simp only [Collecting.inFlight]
  omega

/-- Witness of C10: with ten fetchers, once three polls are in flight the main goroutine
cannot start a fourth one. -/
theorem reconcileAccessGraph_poll_ceiling_witness :
    ∃ s, (Collecting.init tenFetchers).run
        [Action.spawn, Action.spawn, Action.spawn, Action.pollCall 0, Action.pollCall 1,
          Action.pollCall 2] = some s ∧
      s.inFlight = 3 ∧ s.step Action.spawn = none ∧ s.inFlight ≤ 3 := by
  have hrun : (Collecting.init tenFetchers).run
        [Action.spawn, Action.spawn, Action.spawn, Action.pollCall 0, Action.pollCall 1,
          Action.pollCall 2] =
      some { allFetchers := tenFetchers, next := 3, tokens := 3, spawned := [],
             polling := [2, 1, 0], polled := [], queued := [], finished := [], resultsC := [],
             i := 0, results := [], errs := [], polls := [0, 1, 2] } := rfl
  exact ⟨_, hrun, rfl, rfl, (reconcileAccessGraph_poll_ceiling tenFetchers _ _ hrun).1⟩

end CycleClaims

/-! ## The connection lifecycle -/

section Lifecycle
variable {R ρ : Type}

/-- A call of `reconcileAccessGraph` that returns has called `push` once, on the stream
passed in, with `ReconcileResults(prior, MergeResources(results))`. -/
theorem reconcileAccessGraph_push (aws : AwsSync R ρ) (fs : List (AWSSync R))
    (sched : List Action) (cur : R) (stream : StreamClient ρ) (out : CycleOutcome R ρ)
    (h : reconcileAccessGraph aws fs sched cur stream = some out) :
    out.pushCalls = [aws.ReconcileResults cur (aws.MergeResources out.results)] ∧
    out.pushErr =
      (push stream (aws.ReconcileResults cur (aws.MergeResources out.results)).1
        (aws.ReconcileResults cur (aws.MergeResources out.results)).2).1 ∧
    out.stream =
      (push stream (aws.ReconcileResults cur (aws.MergeResources out.results)).1
        (aws.ReconcileResults cur (aws.MergeResources out.results)).2).2 ∧
    (out.pushErr ≠ none → out.currentTAGResources = cur) := by
  obtain ⟨s, _, _, _, _, rfl⟩ := reconcileAccessGraph_some aws _ _ _ _ _ h
  have hr := finish_results aws s.results s.errs s.polls cur stream
  have hp := finish_push aws s.results s.errs s.polls cur stream
  have hc := finish_current aws s.results s.errs s.polls cur stream
  rw [hr.1]
  exact ⟨hr.2.2.2, hp.1, hp.2, hc.2⟩

/-- A push that returns an error leaves a stream on which a `Send` has failed. -/
theorem push_broken (c : StreamClient ρ) (u d : AWSResourceList ρ)
    (h : (push c u d).1 ≠ none) : (push c u d).2.Broken := by
  rw [Ne, push_none_iff, sendAll_none_iff] at h
  have hex : ∃ j, j < (pushMessages u d).length ∧ c.sendResult (c.sent.length + j) ≠ none := by
    by_contra hcon
    apply h
    intro i hi
    by_contra hne
    exact hcon ⟨i, hi, hne⟩
  classical
  have hjs := Nat.find_spec hex
  have hmin : ∀ k, k < Nat.find hex → c.sendResult (c.sent.length + k) = none := by
    intro k hk
    by_contra hk2
    exact Nat.find_min hex hk ⟨lt_trans hk hjs.1, hk2⟩
  obtain ⟨e, he⟩ := Option.ne_none_iff_exists'.mp hjs.2
  have hs := sendAll_fail c (pushMessages u d) (Nat.find hex) e hjs.1 he hmin
  rw [push_eq_sendAll, hs]
  refine ⟨c.sent.length + Nat.find hex, ?_, ?_⟩
  · simp only [List.length_append, List.length_take]
    omega
  · simp only [he]
    simp

/-- On a stream where a failed `Send` is final and one has failed, `push` fails. -/
theorem push_of_broken (c : StreamClient ρ) (u d : AWSResourceList ρ)
    (hs : StickyFailure c.sendResult) (hb : c.Broken) : (push c u d).1 ≠ none := by
  obtain ⟨n, hn, hf⟩ := hb
  rw [Ne, push_none_iff, sendAll_none_iff]
  intro hall
  have h0 := hall 0 (by simp [pushMessages])
  exact hs n (c.sent.length + 0) (by omega) hf h0

/-- One iteration of the streaming loop. -/
theorem loop_cons (aws : AwsSync R ρ) (c : Cycle R) (cs : List (Cycle R)) (cur : R)
    (stream : StreamClient ρ) (records : List (CycleRecord R ρ))
    (ret : Option (Option GoError))
    (h : initializeAndWatchAccessGraph.loop aws (c :: cs) cur stream = some (records, ret)) :
    ∃ out, reconcileAccessGraph aws c.allFetchers c.sched cur stream = some out ∧
      ((∃ err, c.select = SelectEvent.ctxDone err ∧
          records = [{ before := cur, streamBefore := stream, outcome := out }] ∧
          ret = some (traceWrap (some err))) ∨
       ((c.select = SelectEvent.tick ∨ c.select = SelectEvent.reload) ∧
          ∃ rs, initializeAndWatchAccessGraph.loop aws cs out.currentTAGResources out.stream
              = some (rs, ret) ∧
            records = { before := cur, streamBefore := stream, outcome := out } :: rs)) := by
  simp only [initializeAndWatchAccessGraph.loop] at h
  cases hr : reconcileAccessGraph aws c.allFetchers c.sched cur stream with
  | none => rw [hr] at h; simp at h
  | some out =>
    rw [hr] at h
    refine ⟨out, rfl, ?_⟩
    cases hsel : c.select with
    | ctxDone err =>
      rw [hsel] at h
      simp only [Option.some.injEq, Prod.mk.injEq] at h
      exact Or.inl ⟨err, rfl, h.1.symm, h.2.symm⟩
    | tick =>
      rw [hsel] at h
      simp only [] at h
      cases hl : initializeAndWatchAccessGraph.loop aws cs out.currentTAGResources out.stream with
      | none => rw [hl] at h; simp at h
      | some p =>
        rw [hl] at h
        obtain ⟨rs, ret1⟩ := p
        simp only [Option.some.injEq, Prod.mk.injEq] at h
        exact Or.inr ⟨Or.inl rfl, rs, by rw [h.2], h.1.symm⟩
    | reload =>
      rw [hsel] at h
      simp only [] at h
      cases hl : initializeAndWatchAccessGraph.loop aws cs out.currentTAGResources out.stream with
      | none => rw [hl] at h; simp at h
      | some p =>
        rw [hl] at h
        obtain ⟨rs, ret1⟩ := p
        simp only [Option.some.injEq, Prod.mk.injEq] at h
        exact Or.inr ⟨Or.inr rfl, rs, by rw [h.2], h.1.symm⟩

/-- Every record of the streaming loop is a call of `reconcileAccessGraph` for the cycle at
the same position; the first call gets the snapshot and stream the loop starts with, every
later call the snapshot and stream the preceding call left. -/
theorem loop_records (aws : AwsSync R ρ) (cs : List (Cycle R)) (cur : R)
    (stream : StreamClient ρ) (records : List (CycleRecord R ρ))
    (ret : Option (Option GoError))
    (h : initializeAndWatchAccessGraph.loop aws cs cur stream = some (records, ret)) :
    (∀ r, records[0]? = some r → r.before = cur ∧ r.streamBefore = stream) ∧
    (∀ (i : Nat) (r r1 : CycleRecord R ρ), records[i]? = some r → records[i + 1]? = some r1 →
      r1.before = r.outcome.currentTAGResources ∧ r1.streamBefore = r.outcome.stream) ∧
    (∀ (i : Nat) (r : CycleRecord R ρ), records[i]? = some r → ∃ c : Cycle R, cs[i]? = some c ∧
      reconcileAccessGraph aws c.allFetchers c.sched r.before r.streamBefore
        = some r.outcome) := by
  induction cs generalizing cur stream records with
  | nil =>
    simp only [initializeAndWatchAccessGraph.loop, Option.some.injEq, Prod.mk.injEq] at h
    rw [← h.1]
    simp
  | cons c cs ih =>
    obtain ⟨out, hout, hcase⟩ := loop_cons aws c cs cur stream records ret h
    rcases hcase with ⟨err, _, hrec, _⟩ | ⟨_, rs, hl, hrec⟩
    · subst hrec
      refine ⟨?_, ?_, ?_⟩
      · intro r hr
        simp only [List.getElem?_cons_zero, Option.some.injEq] at hr
        subst hr
        exact ⟨rfl, rfl⟩
      · intro i r r1 _ hr1
        simp at hr1
      · intro i r hr
        cases i with
        | zero =>
          simp only [List.getElem?_cons_zero, Option.some.injEq] at hr
          subst hr
          exact ⟨c, List.getElem?_cons_zero, hout⟩
        | succ i => simp at hr
    · subst hrec
      obtain ⟨ih0, ih1, ih2⟩ := ih _ _ rs hl
      refine ⟨?_, ?_, ?_⟩
      · intro r hr
        simp only [List.getElem?_cons_zero, Option.some.injEq] at hr
        subst hr
        exact ⟨rfl, rfl⟩
      · intro i r r1 hr hr1
        cases i with
        | zero =>
          simp only [List.getElem?_cons_zero, Option.some.injEq] at hr
          subst hr
          simp only [Nat.zero_add, List.getElem?_cons_succ] at hr1
          exact ih0 r1 hr1
        | succ i =>
          simp only [List.getElem?_cons_succ] at hr hr1
          exact ih1 i r r1 hr hr1
      · intro i r hr
        cases i with
        | zero =>
          simp only [List.getElem?_cons_zero, Option.some.injEq] at hr
          subst hr
          exact ⟨c, List.getElem?_cons_zero, hout⟩
        | succ i =>
          simp only [List.getElem?_cons_succ] at hr ⊢
          exact ih2 i r hr

/-- How the streaming loop goes on after the cycle at position `i`: on `ctx.Done` it returns
the wrapped context error and no further cycle runs; on a tick or a reload the next cycle,
if the surroundings provide one, runs. -/
theorem loop_select (aws : AwsSync R ρ) (cs : List (Cycle R)) (cur : R)
    (stream : StreamClient ρ) (records : List (CycleRecord R ρ))
    (ret : Option (Option GoError))
    (h : initializeAndWatchAccessGraph.loop aws cs cur stream = some (records, ret))
    (i : Nat) (r : CycleRecord R ρ) (c : Cycle R)
    (hr : records[i]? = some r) (hc : cs[i]? = some c) :
    (∀ err, c.select = SelectEvent.ctxDone err →
      records.length = i + 1 ∧ ret = some (traceWrap (some err))) ∧
    ((c.select = SelectEvent.tick ∨ c.select = SelectEvent.reload) →
      (cs[i + 1]?).isSome → (records[i + 1]?).isSome) := by
  induction cs generalizing cur stream records i with
  | nil => simp at hc
  | cons c0 cs ih =>
    obtain ⟨out, hout, hcase⟩ := loop_cons aws c0 cs cur stream records ret h
    cases i with
    | zero =>
      simp only [List.getElem?_cons_zero, Option.some.injEq] at hc
      subst hc
      rcases hcase with ⟨err, hsel, hrec, hret⟩ | ⟨hsel, rs, hl, hrec⟩
      · subst hrec
        refine ⟨?_, ?_⟩
        · intro err1 h1
          rw [hsel] at h1
          injection h1 with h1
          subst h1
          exact ⟨rfl, hret⟩
        · intro h1
          rw [hsel] at h1
          rcases h1 with h1 | h1 <;> simp at h1
      · subst hrec
        refine ⟨?_, ?_⟩
        · intro err1 h1
          rw [h1] at hsel
          rcases hsel with h2 | h2 <;> simp at h2
        · intro _ hnext
          simp only [Nat.zero_add, List.getElem?_cons_succ] at hnext ⊢
          cases cs with
          | nil => simp at hnext
          | cons c1 cs1 =>
            obtain ⟨out1, _, hcase1⟩ := loop_cons aws c1 cs1 _ _ rs ret hl
            rcases hcase1 with ⟨_, _, hrec1, _⟩ | ⟨_, rs1, _, hrec1⟩ <;> subst hrec1 <;> simp
    | succ i =>
      simp only [List.getElem?_cons_succ] at hc
      rcases hcase with ⟨err, hsel, hrec, hret⟩ | ⟨hsel, rs, hl, hrec⟩
      · subst hrec
        simp at hr
      · subst hrec
        simp only [List.getElem?_cons_succ] at hr
        have := ih _ _ rs hl i hr hc
        simpa using this

/-- The streaming loop runs a cycle for every iteration the surroundings provide, up to
and including the first one whose `select` takes `ctx.Done`. -/
theorem loop_runs (aws : AwsSync R ρ) (cs : List (Cycle R)) (cur : R)
    (stream : StreamClient ρ) (records : List (CycleRecord R ρ))
    (ret : Option (Option GoError))
    (h : initializeAndWatchAccessGraph.loop aws cs cur stream = some (records, ret))
    (i : Nat) (c : Cycle R) (hc : cs[i]? = some c)
    (hbefore : ∀ (j : Nat) (cj : Cycle R), j < i → cs[j]? = some cj →
      cj.select = SelectEvent.tick ∨ cj.select = SelectEvent.reload) :
    ∃ r, records[i]? = some r := by
  induction cs generalizing cur stream records i with
  | nil => simp at hc
  | cons c0 cs ih =>
    obtain ⟨out, _, hcase⟩ := loop_cons aws c0 cs cur stream records ret h
    cases i with
    | zero =>
      rcases hcase with ⟨_, _, hrec, _⟩ | ⟨_, rs, _, hrec⟩ <;> subst hrec <;>
        exact ⟨_, List.getElem?_cons_zero⟩
    | succ i =>
      rcases hcase with ⟨err, hsel, _, _⟩ | ⟨_, rs, hl, hrec⟩
      · have := hbefore 0 c0 (Nat.succ_pos i) List.getElem?_cons_zero
        rw [hsel] at this
        rcases this with h1 | h1 <;> simp at h1
      · subst hrec
        simp only [List.getElem?_cons_succ] at hc ⊢
        exact ih _ _ rs hl i hc (fun j cj hj hcj =>
          hbefore (j + 1) cj (Nat.succ_lt_succ hj) (by simpa using hcj))

/-- Every cycle of the streaming loop runs on the stream the loop was started with: the
outcomes of its `Send` calls are those of that stream. -/
theorem loop_sendResult (aws : AwsSync R ρ) (cs : List (Cycle R)) (cur : R)
    (stream : StreamClient ρ) (records : List (CycleRecord R ρ))
    (ret : Option (Option GoError))
    (h : initializeAndWatchAccessGraph.loop aws cs cur stream = some (records, ret))
    (i : Nat) (r : CycleRecord R ρ) (hr : records[i]? = some r) :
    r.streamBefore.sendResult = stream.sendResult := by
  induction cs generalizing cur stream records i with
  | nil =>
    simp only [initializeAndWatchAccessGraph.loop, Option.some.injEq, Prod.mk.injEq] at h
    rw [← h.1] at hr
    simp at hr
  | cons c0 cs ih =>
    obtain ⟨out, hout, hcase⟩ := loop_cons aws c0 cs cur stream records ret h
    have hstream : out.stream.sendResult = stream.sendResult := by
      rw [(reconcileAccessGraph_push aws _ _ _ _ _ hout).2.2.1, push_sendResult]
    cases i with
    | zero =>
      rcases hcase with ⟨_, _, hrec, _⟩ | ⟨_, rs, _, hrec⟩ <;> subst hrec <;>
        simp only [List.getElem?_cons_zero, Option.some.injEq] at hr <;> subst hr <;> rfl
    | succ i =>
      rcases hcase with ⟨_, _, hrec, _⟩ | ⟨_, rs, hl, hrec⟩
      · subst hrec
        simp at hr
      · subst hrec
        simp only [List.getElem?_cons_succ] at hr
        rw [ih _ _ rs hl i hr, hstream]

/-- On a stream where a failed `Send` is final, the cycle after a cycle whose push failed
fails to push as well. -/
theorem loop_sticky (aws : AwsSync R ρ) (cs : List (Cycle R)) (cur : R)
    (stream : StreamClient ρ) (records : List (CycleRecord R ρ))
    (ret : Option (Option GoError))
    (h : initializeAndWatchAccessGraph.loop aws cs cur stream = some (records, ret))
    (hs : StickyFailure stream.sendResult)
    (i : Nat) (r r1 : CycleRecord R ρ) (hr : records[i]? = some r)
    (hr1 : records[i + 1]? = some r1) (herr : r.outcome.pushErr ≠ none) :
    r1.outcome.pushErr ≠ none := by
  obtain ⟨_, hchain, hrec⟩ := loop_records aws cs cur stream records ret h
  obtain ⟨c, _, hrun⟩ := hrec i r hr
  obtain ⟨c1, _, hrun1⟩ := hrec (i + 1) r1 hr1
  have hp := reconcileAccessGraph_push aws _ _ _ _ _ hrun
  have hp1 := reconcileAccessGraph_push aws _ _ _ _ _ hrun1
  have hbroken : r1.streamBefore.Broken := by
    rw [(hchain i r r1 hr hr1).2, hp.2.2.1]
    apply push_broken
    rw [← hp.2.1]
    exact herr
  rw [hp1.2.1]
  apply push_of_broken _ _ _ _ hbroken
  rw [loop_sendResult aws cs cur stream records ret h (i + 1) r1 hr1]
  exact hs

/-- An invocation of `initializeAndWatchAccessGraph` either fails to connect or to open the
stream, and runs no cycle, or runs the streaming loop on a new stream from the empty
snapshot. -/
theorem initializeAndWatchAccessGraph_cases (aws : AwsSync R ρ) (certs : List Nat)
    (config : AccessGraphConfig) (conn : Connection R) (w : Effects) (out : WatchOutcome R ρ)
    (h : initializeAndWatchAccessGraph aws certs config conn w = some out) :
    (out.streaming = false ∧ out.cycles = [] ∧
      ((newAccessGraphClient conn.env certs config
          [DialOption.WithDefaultServiceConfig serviceConfig] w).1.2 ≠ none ∨
        ∃ err, conn.AWSEventsStream = Except.error err)) ∨
    (out.streaming = true ∧
      (newAccessGraphClient conn.env certs config
          [DialOption.WithDefaultServiceConfig serviceConfig] w).1.2 = none ∧
      ∃ sendResult, conn.AWSEventsStream = Except.ok sendResult ∧
        initializeAndWatchAccessGraph.loop aws conn.cycles aws.empty
          { sent := [], sendResult := sendResult } = some (out.cycles, out.returned)) := by
  simp only [initializeAndWatchAccessGraph] at h
  split at h
  · rename_i hn
    injection h with h
    subst h
    exact Or.inl ⟨rfl, rfl, Or.inl (by rw [hn]; simp)⟩
  · rename_i hn
    split at h
    · rename_i err hs
      injection h with h
      subst h
      exact Or.inl ⟨rfl, rfl, Or.inr ⟨err, hs⟩⟩
    · rename_i sendResult hs
      split at h
      · simp at h
      · rename_i records returned hl
        injection h with h
        subst h
        exact Or.inr ⟨rfl, by rw [hn], sendResult, hs, hl⟩

/-- One iteration of the retry loop of `initAccessGraphWatchers`. -/
theorem watch_cons (aws : AwsSync R ρ) (certs : List Nat) (config : AccessGraphConfig)
    (conn : Connection R) (ev : RetryEvent) (rest : List (Connection R × RetryEvent))
    (w : Effects) (outs : List (WatchOutcome R ρ))
    (h : initAccessGraphWatchers.watch aws certs config ((conn, ev) :: rest) w = some outs) :
    ∃ out, initializeAndWatchAccessGraph aws certs config conn w = some out ∧
      (((out.returned = none ∨ ev = RetryEvent.ctxDone) ∧ outs = [out]) ∨
       (out.returned ≠ none ∧ ev = RetryEvent.after30s ∧
          ∃ outs1, initAccessGraphWatchers.watch aws certs config rest out.effects = some outs1 ∧
            outs = out :: outs1)) := by
  simp only [initAccessGraphWatchers.watch] at h
  cases h1 : initializeAndWatchAccessGraph aws certs config conn w with
  | none => rw [h1] at h; simp at h
  | some o =>
    rw [h1] at h
    simp only [] at h
    refine ⟨o, rfl, ?_⟩
    split at h
    · rename_i hret
      injection h with h
      exact Or.inl ⟨Or.inl hret, h.symm⟩
    · rename_i x hret
      split at h
      · injection h with h
        exact Or.inl ⟨Or.inr rfl, h.symm⟩
      · split at h
        · simp at h
        · rename_i outs1 hrest
          injection h with h
          exact Or.inr ⟨by rw [hret]; simp, rfl, outs1, hrest, h.symm⟩

/-- The outcome at position `k` of the retry loop is the outcome of the invocation of
`initializeAndWatchAccessGraph` for the connection at position `k`. -/
theorem watch_index (aws : AwsSync R ρ) (certs : List Nat) (config : AccessGraphConfig)
    (conns : List (Connection R × RetryEvent)) (w : Effects) (outs : List (WatchOutcome R ρ))
    (h : initAccessGraphWatchers.watch aws certs config conns w = some outs)
    (k : Nat) (out : WatchOutcome R ρ) (hk : outs[k]? = some out) :
    ∃ conn ev w1, conns[k]? = some (conn, ev) ∧
      initializeAndWatchAccessGraph aws certs config conn w1 = some out := by
  induction conns generalizing w outs k with
  | nil =>
    simp only [initAccessGraphWatchers.watch, Option.some.injEq] at h
    subst h
    simp at hk
  | cons p rest ih =>
    obtain ⟨conn, ev⟩ := p
    obtain ⟨o, ho, hcase⟩ := watch_cons aws certs config conn ev rest w outs h
    cases k with
    | zero =>
      have : out = o := by
        rcases hcase with ⟨_, houts⟩ | ⟨_, _, outs1, _, houts⟩ <;> subst houts <;>
          simpa using hk.symm
      subst this
      exact ⟨conn, ev, w, List.getElem?_cons_zero, ho⟩
    | succ k =>
      rcases hcase with ⟨_, houts⟩ | ⟨_, _, outs1, hrest, houts⟩
      · subst houts
        simp at hk
      · subst houts
        simp only [List.getElem?_cons_succ] at hk ⊢
        exact ih _ _ hrest k hk

/-- The retry loop goes on to the next connection after an invocation that returned, unless
the context is done. -/
theorem watch_next (aws : AwsSync R ρ) (certs : List Nat) (config : AccessGraphConfig)
    (conns : List (Connection R × RetryEvent)) (w : Effects) (outs : List (WatchOutcome R ρ))
    (h : initAccessGraphWatchers.watch aws certs config conns w = some outs) :
    ((conns[0]?).isSome → (outs[0]?).isSome) ∧
    ∀ (k : Nat) (out : WatchOutcome R ρ) (conn : Connection R), outs[k]? = some out →
      conns[k]? = some (conn, RetryEvent.after30s) → out.returned ≠ none →
      (conns[k + 1]?).isSome → (outs[k + 1]?).isSome := by
  induction conns generalizing w outs with
  | nil => simp
  | cons p rest ih =>
    obtain ⟨conn, ev⟩ := p
    obtain ⟨o, ho, hcase⟩ := watch_cons aws certs config conn ev rest w outs h
    constructor
    · intro _
      rcases hcase with ⟨_, houts⟩ | ⟨_, _, outs1, _, houts⟩ <;> subst houts <;> simp
    · intro k out conn1 hk hc hret hnext
      cases k with
      | zero =>
        simp only [List.getElem?_cons_zero, Option.some.injEq, Prod.mk.injEq] at hc
        rcases hcase with ⟨hstop, houts⟩ | ⟨_, _, outs1, hrest, houts⟩
        · subst houts
          simp only [List.getElem?_cons_zero, Option.some.injEq] at hk
          subst hk
          rcases hstop with h1 | h1
          · exact absurd h1 hret
          · rw [h1] at hc
            simp at hc
        · subst houts
          simp only [Nat.zero_add, List.getElem?_cons_succ] at hnext ⊢
          exact (ih _ _ hrest).1 hnext
      | succ k =>
        rcases hcase with ⟨_, houts⟩ | ⟨_, _, outs1, hrest, houts⟩
        · subst houts
          simp at hk
        · subst houts
          simp only [List.getElem?_cons_succ] at hk hc hnext ⊢
          exact (ih _ _ hrest).2 k out conn1 hk hc hret hnext

/-- In the concatenation of lists, an element that directly follows another one either
follows it in one of the lists or is the first element of one of the lists. -/
theorem flatten_adjacent {α : Type} (Ls : List (List α)) (q : Nat) (a b : α)
    (ha : Ls.flatten[q]? = some a) (hb : Ls.flatten[q + 1]? = some b) :
    (∃ L, L ∈ Ls ∧ ∃ i, L[i]? = some a ∧ L[i + 1]? = some b) ∨
    (∃ L, L ∈ Ls ∧ L[0]? = some b) := by
  induction Ls generalizing q with
  | nil => simp at ha
  | cons L Ls ih =>
    rw [List.flatten_cons] at ha hb
    by_cases h1 : q + 1 < L.length
    · rw [List.getElem?_append_left (by omega)] at ha
      rw [List.getElem?_append_left h1] at hb
      exact Or.inl ⟨L, List.mem_cons_self _ _, q, ha, hb⟩
    · by_cases h2 : q < L.length
      · have hq : q + 1 - L.length = 0 := by omega
        rw [List.getElem?_append_right (by omega), hq] at hb
        -- `b` is the first element of the rest
        have hfirst : ∀ (Ms : List (List α)), Ms.flatten[0]? = some b →
            ∃ M, M ∈ Ms ∧ M[0]? = some b := by
          intro Ms
          induction Ms with
          | nil => intro hm; simp at hm
          | cons M Ms ihm =>
            intro hm
            rw [List.flatten_cons] at hm
            cases M with
            | nil =>
              simp only [List.nil_append] at hm
              obtain ⟨M1, hM1, hM1b⟩ := ihm hm
              exact ⟨M1, List.mem_cons_of_mem _ hM1, hM1b⟩
            | cons x xs =>
              simp only [List.cons_append, List.getElem?_cons_zero] at hm
              exact ⟨x :: xs, List.mem_cons_self _ _, by simpa using hm⟩
        obtain ⟨M, hM, hMb⟩ := hfirst Ls hb
        exact Or.inr ⟨M, List.mem_cons_of_mem _ hM, hMb⟩
      · rw [List.getElem?_append_right (by omega)] at ha hb
        have hq : q + 1 - L.length = (q - L.length) + 1 := by omega
        rw [hq] at hb
        rcases ih (q - L.length) ha hb with ⟨M, hM, i, h3, h4⟩ | ⟨M, hM, h3⟩
        · exact Or.inl ⟨M, List.mem_cons_of_mem _ hM, i, h3, h4⟩
        · exact Or.inr ⟨M, List.mem_cons_of_mem _ hM, h3⟩

end Lifecycle

section LifecycleClaims
variable {R ρ : Type}

theorem sticky_from_two : StickyFailure (fun n => if 2 ≤ n then some (GoError.raw 9) else none) := by
  intro n m hnm hn
  have h2 : 2 ≤ n := by
    by_contra hlt
    simp [hlt] at hn
  have h3 : 2 ≤ m := by omega
  simp [h3]

theorem sticky_never : StickyFailure (fun _ => (none : Option GoError)) := by
  intro n m _ hn
  exact absurd rfl hn

/-- First cycle on the stream of `stickyConnection`: `1, 2` are upserted. -/
theorem sticky_cycle1 :
    reconcileAccessGraph.finish identityAws [[1, 2]] [] [0] identityAws.empty
        { sent := [], sendResult := fun n => if 2 ≤ n then some (GoError.raw 9) else none } =
      { currentTAGResources := [1, 2],
        stream := { sent := [upsertMsg [1, 2], AWSEventsStreamRequest.Sync],
                    sendResult := fun n => if 2 ≤ n then some (GoError.raw 9) else none },
        results := [[1, 2]], errs := [], polls := [0],
        pushCalls := [({ Resources := [1, 2] }, { Resources := [] })], pushErr := none,
        log := [] } := by
  have hm1 : identityAws.MergeResources [[1, 2]] = [1, 2] := by decide
  have hr1 : identityAws.ReconcileResults identityAws.empty [1, 2] =
      ({ Resources := [1, 2] }, { Resources := [] }) := by decide
  simp [reconcileAccessGraph.finish, hm1, hr1, push, pushUpsertInBatches,
    pushUpsertInBatches.loop, pushDeleteInBatches, pushDeleteInBatches.loop,
    StreamClient.Send, batchSize, traceWrap, goSlice, upsertMsg]

/-- Second cycle on the stream of `stickyConnection`: the `Send` of the upsert of `3`
fails. -/
theorem sticky_cycle2 :
    reconcileAccessGraph.finish identityAws [[1, 2, 3]] [] [0] [1, 2]
        { sent := [upsertMsg [1, 2], AWSEventsStreamRequest.Sync],
          sendResult := fun n => if 2 ≤ n then some (GoError.raw 9) else none } =
      { currentTAGResources := [1, 2],
        stream := { sent := [upsertMsg [1, 2], AWSEventsStreamRequest.Sync, upsertMsg [3]],
                    sendResult := fun n => if 2 ≤ n then some (GoError.raw 9) else none },
        results := [[1, 2, 3]], errs := [], polls := [0],
        pushCalls := [({ Resources := [3] }, { Resources := [] })],
        pushErr := some (GoError.wrapped (GoError.raw 9)),
        log := [LogEntry.errorPushingTAGs (GoError.wrapped (GoError.raw 9))] } := by
  have hm2 : identityAws.MergeResources [[1, 2, 3]] = [1, 2, 3] := by decide
  have hr2 : identityAws.ReconcileResults [1, 2] [1, 2, 3] =
      ({ Resources := [3] }, { Resources := [] }) := by decide
  simp [reconcileAccessGraph.finish, hm2, hr2, push, pushUpsertInBatches,
    pushUpsertInBatches.loop, pushDeleteInBatches, pushDeleteInBatches.loop,
    StreamClient.Send, batchSize, traceWrap, GoError.traced, GoError.isTrace, goSlice,
    upsertMsg]

/-- Third cycle on the stream of `stickyConnection`: the `Send` of the upsert of `3` fails
again. -/
theorem sticky_cycle3 :
    reconcileAccessGraph.finish identityAws [[1, 2, 3]] [] [0] [1, 2]
        { sent := [upsertMsg [1, 2], AWSEventsStreamRequest.Sync, upsertMsg [3]],
          sendResult := fun n => if 2 ≤ n then some (GoError.raw 9) else none } =
      { currentTAGResources := [1, 2],
        stream := { sent := [upsertMsg [1, 2], AWSEventsStreamRequest.Sync, upsertMsg [3],
                      upsertMsg [3]],
                    sendResult := fun n => if 2 ≤ n then some (GoError.raw 9) else none },
        results := [[1, 2, 3]], errs := [], polls := [0],
        pushCalls := [({ Resources := [3] }, { Resources := [] })],
        pushErr := some (GoError.wrapped (GoError.raw 9)),
        log := [LogEntry.errorPushingTAGs (GoError.wrapped (GoError.raw 9))] } := by
  have hm2 : identityAws.MergeResources [[1, 2, 3]] = [1, 2, 3] := by decide
  have hr2 : identityAws.ReconcileResults [1, 2] [1, 2, 3] =
      ({ Resources := [3] }, { Resources := [] }) := by decide
  simp [reconcileAccessGraph.finish, hm2, hr2, push, pushUpsertInBatches,
    pushUpsertInBatches.loop, pushDeleteInBatches, pushDeleteInBatches.loop,
    StreamClient.Send, batchSize, traceWrap, GoError.traced, GoError.isTrace, goSlice,
    upsertMsg]

/-- A cycle on a new sound stream in which the fetcher finds `1, 2, 3`. -/
theorem sound_cycle123 :
    reconcileAccessGraph.finish identityAws [[1, 2, 3]] [] [0] identityAws.empty
        { sent := [], sendResult := fun _ => none } =
      { currentTAGResources := [1, 2, 3],
        stream := { sent := [upsertMsg [1, 2, 3], AWSEventsStreamRequest.Sync],
                    sendResult := fun _ => none },
        results := [[1, 2, 3]], errs := [], polls := [0],
        pushCalls := [({ Resources := [1, 2, 3] }, { Resources := [] })], pushErr := none,
        log := [] } := by
  have hm2 : identityAws.MergeResources [[1, 2, 3]] = [1, 2, 3] := by decide
  have hr2 : identityAws.ReconcileResults identityAws.empty [1, 2, 3] =
      ({ Resources := [1, 2, 3] }, { Resources := [] }) := by decide
  simp [reconcileAccessGraph.finish, hm2, hr2, push, pushUpsertInBatches,
    pushUpsertInBatches.loop, pushDeleteInBatches, pushDeleteInBatches.loop,
    StreamClient.Send, batchSize, traceWrap, goSlice, upsertMsg]

/-- The three cycles on the connection `stickyConnection`: the first pushes `1, 2`, the
push of the second fails on its first `Send`, and the third cycle runs on the same stream,
against the snapshot `[1, 2]`, and fails as well. -/
theorem stickyConnection_cycles :
    ∃ out r2 r3,
      initializeAndWatchAccessGraph identityAws [] plainConfig stickyConnection
        { reads := [], dials := [] } = some out ∧
      out.cycles.length = 3 ∧
      out.cycles[1]? = some r2 ∧ out.cycles[2]? = some r3 ∧
      r2.outcome.pushErr = some (GoError.wrapped (GoError.raw 9)) ∧
      r2.outcome.stream.sent =
        [upsertMsg [1, 2], AWSEventsStreamRequest.Sync, upsertMsg [3]] ∧
      r3.streamBefore.sent = r2.outcome.stream.sent ∧
      r3.before = [1, 2] := by
  simp [initializeAndWatchAccessGraph, newAccessGraphClient, grpcCredentials, plainConfig,
    stickyConnection, plainEnv, traceWrap, initializeAndWatchAccessGraph.loop, cycleOf,
    reconcile_single, sticky_cycle1, sticky_cycle2, sticky_cycle3]

/-- The failing connection `stickyConnection` followed by the connection
`resyncConnection`: of all four cycles the third fails to push and the fourth, the first of
the new connection, succeeds with the result set `[1, 2, 3]`. -/
theorem resync_cycles :
    ∃ outs r2 r3,
      initAccessGraphWatchers identityAws [] plainConfig
        [(stickyConnection, RetryEvent.after30s), (resyncConnection, RetryEvent.ctxDone)]
        { reads := [], dials := [] } = some outs ∧
      (outs.map (fun o => o.cycles)).flatten[2]? = some r2 ∧
      (outs.map (fun o => o.cycles)).flatten[3]? = some r3 ∧
      r2.outcome.pushErr = some (GoError.wrapped (GoError.raw 9)) ∧
      r3.outcome.pushErr = none ∧
      r3.outcome.results = [[1, 2, 3]] := by
  simp [initAccessGraphWatchers, initAccessGraphWatchers.watch, initializeAndWatchAccessGraph,
    newAccessGraphClient, grpcCredentials, plainConfig, stickyConnection, resyncConnection,
    plainEnv, traceWrap, initializeAndWatchAccessGraph.loop, cycleOf, reconcile_single,
    sticky_cycle1, sticky_cycle2, sticky_cycle3, sound_cycle123]

/-- Counterexample to C7 as stated: on the connection `stickyConnection`, whose stream
fails the third `Send` and every later one, the push of the second cycle returns an error,
yet the streaming loop does not return: it runs a third cycle on the same stream, on which
three messages have been sent. -/
theorem initializeAndWatchAccessGraph_continues_after_push_error :
    StickyFailure (fun n => if 2 ≤ n then some (GoError.raw 9) else none) ∧
    ∃ out r2 r3,
      initializeAndWatchAccessGraph identityAws [] plainConfig stickyConnection
        { reads := [], dials := [] } = some out ∧
      out.cycles[1]? = some r2 ∧ r2.outcome.pushErr ≠ none ∧
      out.cycles[2]? = some r3 ∧
      r3.streamBefore.sent = r2.outcome.stream.sent ∧
      r3.streamBefore.sent.length = 3 := by
  refine ⟨sticky_from_two, ?_⟩
  obtain ⟨out, r2, r3, h1, _, h2, h3, h4, h5, h6, _⟩ := stickyConnection_cycles
  refine ⟨out, r2, r3, h1, h2, ?_, h3, h6, ?_⟩
  · rw [h4]; simp
  · rw [h6, h5]; rfl

/-- Claim C7, amended. A cycle whose push returns an error leaves the snapshot as it was,
and the streaming loop does not return because of that error: it returns only if the
`select` after the cycle takes `ctx.Done` (then no further cycle runs on the connection and
`trace.Wrap` of the context error is returned); if the ticker or a reload fires, the next
cycle runs on the same stream against the unchanged snapshot. On streams on which a failed
`Send` is final, the cycle after a failed one on the same connection fails as well, so a
successful cycle that directly follows a failed one, in the order of all cycles of all
connections, is the first cycle of a later connection: it runs against the empty snapshot on
a stream on which nothing has been sent, and pushes
`ReconcileResults(empty, MergeResources(results))`. -/
theorem initAccessGraphWatchers_after_push_error (aws : AwsSync R ρ) (certs : List Nat)
    (config : AccessGraphConfig) (conns : List (Connection R × RetryEvent)) (w : Effects)
    (outs : List (WatchOutcome R ρ))
    (h : initAccessGraphWatchers aws certs config conns w = some outs) :
    (∀ (k : Nat) (out : WatchOutcome R ρ), outs[k]? = some out →
      ∃ conn ev, conns[k]? = some (conn, ev) ∧
        ∀ (i : Nat) (r : CycleRecord R ρ), out.cycles[i]? = some r →
          r.outcome.pushErr ≠ none →
            r.outcome.currentTAGResources = r.before ∧
            ∃ c : Cycle R, conn.cycles[i]? = some c ∧
              (∀ err, c.select = SelectEvent.ctxDone err →
                out.cycles.length = i + 1 ∧ out.returned = some (traceWrap (some err))) ∧
              ((c.select = SelectEvent.tick ∨ c.select = SelectEvent.reload) →
                (conn.cycles[i + 1]?).isSome →
                  ∃ r1, out.cycles[i + 1]? = some r1 ∧ r1.before = r.before ∧
                    r1.streamBefore = r.outcome.stream)) ∧
    ((∀ (conn : Connection R) (ev : RetryEvent) (f : Nat → Option GoError),
        (conn, ev) ∈ conns → conn.AWSEventsStream = Except.ok f → StickyFailure f) →
      (∀ (out : WatchOutcome R ρ), out ∈ outs → ∀ (i : Nat) (r r1 : CycleRecord R ρ),
        out.cycles[i]? = some r → out.cycles[i + 1]? = some r1 →
          r.outcome.pushErr ≠ none → r1.outcome.pushErr ≠ none) ∧
      (∀ (q : Nat) (r r1 : CycleRecord R ρ),
        (outs.map (fun o => o.cycles)).flatten[q]? = some r →
        (outs.map (fun o => o.cycles)).flatten[q + 1]? = some r1 →
          r.outcome.pushErr ≠ none → r1.outcome.pushErr = none →
            r1.before = aws.empty ∧ r1.streamBefore.sent = [] ∧
            r1.outcome.pushCalls =
              [aws.ReconcileResults aws.empty (aws.MergeResources r1.outcome.results)])) := by
  simp only [initAccessGraphWatchers] at h
  split at h
  swap
  · injection h with h
    subst h
    simp
  have hfacts : ∀ (out : WatchOutcome R ρ), out ∈ outs →
      ∃ conn ev w1, (conn, ev) ∈ conns ∧
        initializeAndWatchAccessGraph aws certs config conn w1 = some out := by
    intro out hmem
    obtain ⟨k, hk⟩ := List.mem_iff_getElem?.mp hmem
    obtain ⟨conn, ev, w1, hc, hi⟩ := watch_index aws certs config conns w outs h k out hk
    exact ⟨conn, ev, w1, List.getElem?_mem hc, hi⟩
  refine ⟨?_, ?_⟩
  · intro k out hk
    obtain ⟨conn, ev, w1, hc, hi⟩ := watch_index aws certs config conns w outs h k out hk
    refine ⟨conn, ev, hc, ?_⟩
    intro i r hr herr
    rcases initializeAndWatchAccessGraph_cases aws certs config conn w1 out hi with
      ⟨_, hnil, _⟩ | ⟨_, _, sendResult, _, hl⟩
    · rw [hnil] at hr
      simp at hr
    · obtain ⟨_, hchain, hrec⟩ := loop_records aws _ _ _ _ _ hl
      obtain ⟨c, hcc, hrun⟩ := hrec i r hr
      have hcur := (reconcileAccessGraph_push aws _ _ _ _ _ hrun).2.2.2 herr
      obtain ⟨hdone, hnext⟩ := loop_select aws _ _ _ _ _ hl i r c hr hcc
      refine ⟨hcur, c, hcc, hdone, ?_⟩
      intro hsel hsome
      obtain ⟨r1, hr1⟩ := Option.isSome_iff_exists.mp (hnext hsel hsome)
      have := hchain i r r1 hr hr1
      exact ⟨r1, hr1, this.1.trans hcur, this.2⟩
  · intro hsticky
    have hB1 : ∀ (out : WatchOutcome R ρ), out ∈ outs → ∀ (i : Nat) (r r1 : CycleRecord R ρ),
        out.cycles[i]? = some r → out.cycles[i + 1]? = some r1 →
          r.outcome.pushErr ≠ none → r1.outcome.pushErr ≠ none := by
      intro out hmem i r r1 hr hr1 herr
      obtain ⟨conn, ev, w1, hc, hi⟩ := hfacts out hmem
      rcases initializeAndWatchAccessGraph_cases aws certs config conn w1 out hi with
        ⟨_, hnil, _⟩ | ⟨_, _, sendResult, hs, hl⟩
      · rw [hnil] at hr
        simp at hr
      · exact loop_sticky aws _ _ _ _ _ hl (hsticky conn ev sendResult hc hs) i r r1 hr hr1 herr
    refine ⟨hB1, ?_⟩
    intro q r r1 hq hq1 herr hok
    rcases flatten_adjacent _ q r r1 hq hq1 with ⟨L, hL, i, h3, h4⟩ | ⟨L, hL, h3⟩
    · obtain ⟨out, hmem, rfl⟩ := List.mem_map.mp hL
      exact absurd hok (hB1 out hmem i r r1 h3 h4 herr)
    · obtain ⟨out, hmem, rfl⟩ := List.mem_map.mp hL
      obtain ⟨conn, ev, w1, hc, hi⟩ := hfacts out hmem
      rcases initializeAndWatchAccessGraph_cases aws certs config conn w1 out hi with
        ⟨_, hnil, _⟩ | ⟨_, _, sendResult, hs, hl⟩
      · rw [hnil] at h3
        simp at h3
      · obtain ⟨h0, _, hrec⟩ := loop_records aws _ _ _ _ _ hl
        obtain ⟨hb, hsb⟩ := h0 r1 h3
        obtain ⟨c, _, hrun⟩ := hrec 0 r1 h3
        have hp := (reconcileAccessGraph_push aws _ _ _ _ _ hrun).1
        rw [hb] at hp
        exact ⟨hb, by rw [hsb], hp⟩

/-- Witness of the amended C7: the connection `stickyConnection`, on which the pushes of
the second and third cycle fail, is followed by the connection `resyncConnection`. The
first successful cycle after the failures is the first cycle of the new connection; it runs
against the empty snapshot and upserts `1, 2, 3`, although `1, 2` were pushed before. -/
theorem initAccessGraphWatchers_after_push_error_witness :
    ∃ outs r2 r3,
      initAccessGraphWatchers identityAws [] plainConfig
        [(stickyConnection, RetryEvent.after30s), (resyncConnection, RetryEvent.ctxDone)]
        { reads := [], dials := [] } = some outs ∧
      (outs.map (fun o => o.cycles)).flatten[2]? = some r2 ∧
      (outs.map (fun o => o.cycles)).flatten[3]? = some r3 ∧
      r2.outcome.pushErr ≠ none ∧ r3.outcome.pushErr = none ∧
      r3.before = [] ∧
      r3.outcome.pushCalls = [({ Resources := [1, 2, 3] }, { Resources := [] })] := by
  obtain ⟨outs, r2, r3, h, h2, h3, herr, hok, hres⟩ := resync_cycles
  have hsticky : ∀ (conn : Connection (List Nat)) (ev : RetryEvent) (f : Nat → Option GoError),
      (conn, ev) ∈ [(stickyConnection, RetryEvent.after30s),
        (resyncConnection, RetryEvent.ctxDone)] →
      conn.AWSEventsStream = Except.ok f → StickyFailure f := by
    intro conn ev f hmem hf
    simp only [List.mem_cons, Prod.mk.injEq, List.mem_singleton, List.not_mem_nil,
      or_false] at hmem
    rcases hmem with ⟨rfl, _⟩ | ⟨rfl, _⟩
    · simp only [stickyConnection, Except.ok.injEq] at hf
      rw [← hf]
      exact sticky_from_two
    · simp only [resyncConnection, Except.ok.injEq] at hf
      rw [← hf]
      exact sticky_never
  have herr2 : r2.outcome.pushErr ≠ none := by rw [herr]; simp
  have hthm := ((initAccessGraphWatchers_after_push_error identityAws [] plainConfig _ _ outs
    h).2 hsticky).2 2 r2 r3 h2 h3 herr2 hok
  refine ⟨outs, r2, r3, h, h2, h3, herr2, hok, hthm.1, ?_⟩
  rw [hthm.2.2, hres]
  decide

/-- Claim C8. The retry loop of `initAccessGraphWatchers` invokes
`initializeAndWatchAccessGraph` for the first connection, and again after every invocation
that returned unless the context is done. Each invocation, whatever the earlier ones did,
reaches the streaming loop exactly when connecting and opening the stream succeed, and runs
no cycle otherwise. In the streaming loop a cycle runs for every iteration up to the first
whose `select` takes `ctx.Done`; the first cycle runs against the empty snapshot on a stream
on which nothing has been sent, and every later cycle against exactly the snapshot, and on
the stream, left by the cycle before it. -/
theorem initAccessGraphWatchers_snapshot_reset (aws : AwsSync R ρ) (certs : List Nat)
    (config : AccessGraphConfig) (conns : List (Connection R × RetryEvent)) (w : Effects)
    (outs : List (WatchOutcome R ρ))
    (h : initAccessGraphWatchers aws certs config conns w = some outs) :
    (config.Enabled = true → (conns[0]?).isSome → (outs[0]?).isSome) ∧
    (∀ (k : Nat) (out : WatchOutcome R ρ) (conn : Connection R), outs[k]? = some out →
      conns[k]? = some (conn, RetryEvent.after30s) → out.returned ≠ none →
      (conns[k + 1]?).isSome → (outs[k + 1]?).isSome) ∧
    ∀ (k : Nat) (out : WatchOutcome R ρ), outs[k]? = some out →
      ∃ conn ev w1, conns[k]? = some (conn, ev) ∧
        initializeAndWatchAccessGraph aws certs config conn w1 = some out ∧
        (out.streaming = true ↔
          (newAccessGraphClient conn.env certs config
            [DialOption.WithDefaultServiceConfig serviceConfig] w1).1.2 = none ∧
          ∃ f, conn.AWSEventsStream = Except.ok f) ∧
        (out.streaming = false → out.cycles = []) ∧
        (out.streaming = true →
          (∀ (i : Nat) (c : Cycle R), conn.cycles[i]? = some c →
            (∀ (j : Nat) (cj : Cycle R), j < i → conn.cycles[j]? = some cj →
              cj.select = SelectEvent.tick ∨ cj.select = SelectEvent.reload) →
            ∃ r, out.cycles[i]? = some r ∧
              reconcileAccessGraph aws c.allFetchers c.sched r.before r.streamBefore
                = some r.outcome) ∧
          (∀ r, out.cycles[0]? = some r → r.before = aws.empty ∧ r.streamBefore.sent = []) ∧
          (∀ (i : Nat) (r r1 : CycleRecord R ρ),
            out.cycles[i]? = some r → out.cycles[i + 1]? = some r1 →
              r1.before = r.outcome.currentTAGResources ∧
              r1.streamBefore = r.outcome.stream)) := by
  simp only [initAccessGraphWatchers] at h
  split at h
  swap
  · rename_i hen
    injection h with h
    subst h
    refine ⟨fun he => absurd he hen, ?_, ?_⟩ <;> simp
  rename_i hen
  have hnext := watch_next aws certs config conns w outs h
  refine ⟨fun _ => hnext.1, hnext.2, ?_⟩
  intro k out hk
  obtain ⟨conn, ev, w1, hc, hi⟩ := watch_index aws certs config conns w outs h k out hk
  refine ⟨conn, ev, w1, hc, hi, ?_⟩
  rcases initializeAndWatchAccessGraph_cases aws certs config conn w1 out hi with
    ⟨hst, hnil, hfail⟩ | ⟨hst, hconn, sendResult, hs, hl⟩
  · refine ⟨?_, fun _ => hnil, ?_⟩
    · constructor
      · intro ht
        rw [hst] at ht
        simp at ht
      · rintro ⟨h1, f, hf⟩
        rcases hfail with h2 | ⟨err, h2⟩
        · exact absurd h1 h2
        · rw [hf] at h2
          simp at h2
    · intro ht
      rw [hst] at ht
      simp at ht
  · refine ⟨?_, ?_, ?_⟩
    · exact ⟨fun _ => ⟨hconn, sendResult, hs⟩, fun _ => hst⟩
    · intro hf
      rw [hst] at hf
      simp at hf
    · intro _
      obtain ⟨h0, hchain, hrec⟩ := loop_records aws _ _ _ _ _ hl
      refine ⟨?_, ?_, hchain⟩
      · intro i c hci hbefore
        obtain ⟨r, hr⟩ := loop_runs aws _ _ _ _ _ hl i c hci hbefore
        obtain ⟨c1, hc1, hrun⟩ := hrec i r hr
        rw [hci] at hc1
        injection hc1 with hc1
        subst hc1
        exact ⟨r, hr, hrun⟩
      · intro r hr
        have := h0 r hr
        exact ⟨this.1, by rw [this.2]⟩

/-- First cycle on a new sound stream in which the fetcher finds `1, 2`. -/
theorem sound_cycle12 :
    reconcileAccessGraph.finish identityAws [[1, 2]] [] [0] identityAws.empty
        { sent := [], sendResult := fun _ => none } =
      { currentTAGResources := [1, 2],
        stream := { sent := [upsertMsg [1, 2], AWSEventsStreamRequest.Sync],
                    sendResult := fun _ => none },
        results := [[1, 2]], errs := [], polls := [0],
        pushCalls := [({ Resources := [1, 2] }, { Resources := [] })], pushErr := none,
        log := [] } := by
  have hm : identityAws.MergeResources [[1, 2]] = [1, 2] := by decide
  have hr : identityAws.ReconcileResults identityAws.empty [1, 2] =
      ({ Resources := [1, 2] }, { Resources := [] }) := by decide
  simp [reconcileAccessGraph.finish, hm, hr, push, pushUpsertInBatches,
    pushUpsertInBatches.loop, pushDeleteInBatches, pushDeleteInBatches.loop,
    StreamClient.Send, batchSize, traceWrap, goSlice, upsertMsg]

/-- Second cycle on the same stream, in which the fetcher finds `1, 2, 3`. -/
theorem sound_cycle12_then_123 :
    reconcileAccessGraph.finish identityAws [[1, 2, 3]] [] [0] [1, 2]
        { sent := [upsertMsg [1, 2], AWSEventsStreamRequest.Sync],
          sendResult := fun _ => none } =
      { currentTAGResources := [1, 2, 3],
        stream := { sent := [upsertMsg [1, 2], AWSEventsStreamRequest.Sync, upsertMsg [3],
                      AWSEventsStreamRequest.Sync],
                    sendResult := fun _ => none },
        results := [[1, 2, 3]], errs := [], polls := [0],
        pushCalls := [({ Resources := [3] }, { Resources := [] })], pushErr := none,
        log := [] } := by
  have hm : identityAws.MergeResources [[1, 2, 3]] = [1, 2, 3] := by decide
  have hr : identityAws.ReconcileResults [1, 2] [1, 2, 3] =
      ({ Resources := [3] }, { Resources := [] }) := by decide
  simp [reconcileAccessGraph.finish, hm, hr, push, pushUpsertInBatches,
    pushUpsertInBatches.loop, pushDeleteInBatches, pushDeleteInBatches.loop,
    StreamClient.Send, batchSize, traceWrap, goSlice, upsertMsg]

/-- Two connections `twoCycleConnection` in a row: the second invocation reaches the
streaming loop and runs two cycles, the first of which upserts `1, 2` and leaves the
snapshot `[1, 2]`. -/
theorem twoCycle_run :
    ∃ outs out r0 r1,
      initAccessGraphWatchers identityAws [] plainConfig
        [(twoCycleConnection, RetryEvent.after30s), (twoCycleConnection, RetryEvent.ctxDone)]
        { reads := [], dials := [] } = some outs ∧
      outs[1]? = some out ∧ out.streaming = true ∧
      out.cycles[0]? = some r0 ∧ out.cycles[1]? = some r1 ∧
      r0.outcome.pushCalls = [({ Resources := [1, 2] }, { Resources := [] })] ∧
      r0.outcome.currentTAGResources = [1, 2] ∧
      r1.outcome.pushCalls = [({ Resources := [3] }, { Resources := [] })] := by
  simp [initAccessGraphWatchers, initAccessGraphWatchers.watch, initializeAndWatchAccessGraph,
    newAccessGraphClient, grpcCredentials, plainConfig, twoCycleConnection,
    plainEnv, traceWrap, initializeAndWatchAccessGraph.loop, cycleOf, reconcile_single,
    sound_cycle12, sound_cycle12_then_123]

/-- Witness of C8: two connections in a row, on each of which the fetcher finds `1, 2` and
then `1, 2, 3`. The second invocation runs its first cycle against the empty snapshot and
upserts `1, 2` again; its second cycle runs against the snapshot `[1, 2]` left by the first
and upserts only `3`. -/
theorem initAccessGraphWatchers_snapshot_reset_witness :
    ∃ outs out r0 r1,
      initAccessGraphWatchers identityAws [] plainConfig
        [(twoCycleConnection, RetryEvent.after30s), (twoCycleConnection, RetryEvent.ctxDone)]
        { reads := [], dials := [] } = some outs ∧
      outs[1]? = some out ∧ out.streaming = true ∧
      out.cycles[0]? = some r0 ∧ out.cycles[1]? = some r1 ∧
      r0.before = [] ∧ r0.streamBefore.sent = [] ∧
      r0.outcome.pushCalls = [({ Resources := [1, 2] }, { Resources := [] })] ∧
      r1.before = [1, 2] ∧ r1.streamBefore = r0.outcome.stream ∧
      r1.outcome.pushCalls = [({ Resources := [3] }, { Resources := [] })] := by
  obtain ⟨outs, out, r0, r1, h, hk, hst, h0, h1, hp0, hc0, hp1⟩ := twoCycle_run
  obtain ⟨_, _, _, _, _, _, _, hstream⟩ :=
    (initAccessGraphWatchers_snapshot_reset identityAws [] plainConfig _ _ outs h).2.2 1 out hk
  obtain ⟨_, hhead, hchain⟩ := hstream hst
  have hb := hhead r0 h0
  have hn := hchain 0 r0 r1 h0 h1
  exact ⟨outs, out, r0, r1, h, hk, hst, h0, h1, hb.1, hb.2, hp0, hn.1.trans hc0, hn.2, hp1⟩

end LifecycleClaims

/-! ## Transport credentials -/

section Credentials

/-- An error returned by `grpcCredentials` is a trace error. -/
theorem grpcCredentials_isTrace (env : Env) (config : AccessGraphConfig) (certs : List Nat)
    (w : Effects) (err : GoError) (h : (grpcCredentials env config certs w).1.2 = some err) :
    err.isTrace = true := by
  simp only [grpcCredentials] at h
  split at h
  · rename_i e1 w1 hp
    simp only [Option.some.injEq] at h
    subst h
    split at hp
    · split at hp
      · simp only [Prod.mk.injEq, Except.error.injEq] at hp
        rw [← hp.1]
        exact traced_isTrace _
      · split at hp
        · simp only [Prod.mk.injEq, Except.error.injEq] at hp
          rw [← hp.1]
          rfl
        · simp at hp
    · simp at hp
  · simp at h

/-- Claim C9. With a trust root path configured, `grpcCredentials` returns no dial option and
a non-nil error when the file cannot be read (`trace.Wrap` of the read error) or yields no
certificate (a bad-parameter error). With no trust root path configured it reads no file and
returns a dial option and no error. Whenever `grpcCredentials` returns an error,
`newAccessGraphClient` returns no connection and that same error, and does not dial. -/
theorem grpcCredentials_trust_root (env : Env) (config : AccessGraphConfig)
    (certs : List Nat) (opts : List DialOption) (w : Effects) :
    (config.CA ≠ "" → ∀ err, env.ReadFile config.CA = Except.error err →
      (grpcCredentials env config certs w).1 = (none, traceWrap (some err)) ∧
      (grpcCredentials env config certs w).1.2 ≠ none) ∧
    (config.CA ≠ "" → ∀ caBytes, env.ReadFile config.CA = Except.ok caBytes →
      env.AppendCertsFromPEM caBytes = [] →
      (grpcCredentials env config certs w).1 =
        (none, some (GoError.badParameter "failed to append CA certificate to pool"))) ∧
    (config.CA = "" →
      (grpcCredentials env config certs w).2 = w ∧
      (grpcCredentials env config certs w).1.2 = none ∧
      (grpcCredentials env config certs w).1.1 ≠ none) ∧
    (∀ err, (grpcCredentials env config certs w).1.2 = some err →
      (newAccessGraphClient env certs config opts w).1 = (none, some err) ∧
      (newAccessGraphClient env certs config opts w).2.dials = w.dials) := by
  refine ⟨?_, ?_, ?_, ?_⟩
  · intro hca err hread
    simp [grpcCredentials, hca, hread, traceWrap]
  · intro hca caBytes hread hparse
    simp [grpcCredentials, hca, hread, hparse]
  · intro hca
    simp [grpcCredentials, hca]
  · intro err herr
    have htr := grpcCredentials_isTrace env config certs w err herr
    have hdials : (grpcCredentials env config certs w).2.dials = w.dials := by
      simp only [grpcCredentials]
      split <;> rename_i hp <;> split at hp <;> (try split at hp) <;> (try split at hp) <;>
        simp only [Prod.mk.injEq] at hp <;> rw [← hp.2]
    simp only [newAccessGraphClient]
    split
    · rename_i e1 w1 hg
      rw [hg] at herr hdials
      simp only [Option.some.injEq] at herr
      subst herr
      refine ⟨?_, hdials⟩
      simp [traceWrap, GoError.traced, htr]
    · rename_i opt w1 hg
      rw [hg] at herr
      simp at herr

/-- Witness of C9: the trust root file reads but holds no certificate; `grpcCredentials`
fails and `newAccessGraphClient` returns the same error without dialing. With an unreadable
file the read error comes back as a trace error. -/
theorem grpcCredentials_trust_root_witness :
    (grpcCredentials badPemEnv caConfig [] { reads := [], dials := [] }).1 =
      (none, some (GoError.badParameter "failed to append CA certificate to pool")) ∧
    (newAccessGraphClient badPemEnv [] caConfig [] { reads := [], dials := [] }).1 =
      (none, some (GoError.badParameter "failed to append CA certificate to pool")) ∧
    (newAccessGraphClient badPemEnv [] caConfig [] { reads := [], dials := [] }).2.dials = [] ∧
    (grpcCredentials plainEnv caConfig [] { reads := [], dials := [] }).1 =
      (none, some (GoError.wrapped (GoError.raw 1))) ∧
    (newAccessGraphClient plainEnv [] caConfig [] { reads := [], dials := [] }).1 =
      (none, some (GoError.wrapped (GoError.raw 1))) := by
  have h := grpcCredentials_trust_root badPemEnv caConfig [] [] { reads := [], dials := [] }
  have h1 := h.2.1 (by decide) [45, 45] rfl rfl
  have h2 := h.2.2.2 _ (by rw [h1])
  have g := grpcCredentials_trust_root plainEnv caConfig [] [] { reads := [], dials := [] }
  have g1 := (g.1 (by decide) (GoError.raw 1) rfl).1
  have g2 := g.2.2.2 (GoError.wrapped (GoError.raw 1)) (by rw [g1]; rfl)
  exact ⟨h1, h2.1, h2.2, g1, g2.1⟩

end Credentials

end Discovery
